import Mathlib

/-!
Shallow embedding of the Game of Life engine in `src/world.rs` (the library
crate's `World`), together with proofs about its operations.

Modelling conventions:
* `Vec<Vec<Cell>>` indexed as `cells[y][x]` is modelled as a total function
  `cells : Nat → Nat → Cell` (first argument `x`, second `y`), plus explicit
  `width`/`height` fields.  Every slice-indexing site of the Rust code is
  reflected by a bounds-checked `Option`-returning wrapper (`birth_cell?`,
  `toggle_cell?`, ...): an index out of bounds panics in Rust and is `none`
  here.
* The `u8` field `live_neighbours_count` is modelled as a `Nat` kept below
  `2^8` by taking `% 256` at every update; `-= 1` is `(· + 255) % 256`
  (two's-complement wrapping, the release-mode semantics of Rust overflow).
* `thread_rng().gen_bool(0.5)` is modelled by an explicit stream
  `Nat → Bool` of Bernoulli draws, consumed one draw per loop iteration.
-/

namespace Gol

/-- The 8 Moore-neighbourhood offsets, in the order of the `OFFSETS`
constant of `world.rs`. -/
def OFFSETS : List (Int × Int) :=
  [(-1, -1), (-1, 0), (-1, 1), (0, -1), (0, 1), (1, -1), (1, 0), (1, 1)]

/-- Rust `struct Cell`, with fields `alive` and `live_neighbours_count`. -/
structure Cell where
  alive : Bool
  live_neighbours_count : Nat
deriving DecidableEq, Repr

/-- Constructor `Cell::new()`: dead, count 0. -/
def Cell.new : Cell :=
  { alive := false, live_neighbours_count := 0 }

/-- Wrapping `u8` increment (`live_neighbours_count += 1`). -/
def Cell.inc (c : Cell) : Cell :=
  { c with live_neighbours_count := (c.live_neighbours_count + 1) % 256 }

/-- Wrapping `u8` decrement (`live_neighbours_count -= 1`). -/
def Cell.dec (c : Cell) : Cell :=
  { c with live_neighbours_count := (c.live_neighbours_count + 255) % 256 }

/-- Rust `struct World`; `cells x y` is `cells[y][x]`. -/
structure World where
  width : Nat
  height : Nat
  cells : Nat → Nat → Cell

/-- Constructor `World::new(width, height)`: every cell dead with count 0. -/
def World.new (width height : Nat) : World :=
  { width := width, height := height, cells := fun _ _ => Cell.new }

/-- Assignment `self.cells[y][x] = c` (functional update of one cell). -/
def World.setCell (w : World) (x y : Nat) (c : Cell) : World :=
  { w with cells := fun x0 y0 => if x0 = x ∧ y0 = y then c else w.cells x0 y0 }

/-- Function `add_offset(max, n, offset)` of `world.rs`: the `match` on
`r = n as isize + offset` returns `0` when `r > max`, `max` when `r < 0`,
and `r` otherwise. -/
def add_offset (max n : Nat) (offset : Int) : Nat :=
  let r : Int := (n : Int) + offset
  if r > (max : Int) then 0
  else if r < 0 then max
  else r.toNat

/-- Method `World::for_each_neighbour`: apply `f` at each of the 8 wrapped
neighbour coordinates, in `OFFSETS` order, threading the mutated world.
The wrap bound is read from the threaded world, as `self.width`/`self.height`
are in the Rust loop body. -/
def World.for_each_neighbour (w : World) (x y : Nat)
    (f : World → Nat → Nat → World) : World :=
  OFFSETS.foldl
    (fun wa off =>
      f wa (add_offset (wa.width - 1) x off.1) (add_offset (wa.height - 1) y off.2))
    w

/-- Method `World::birth_cell`: set alive, then increment each wrapped neighbour's
count. No guard: an already-alive cell's neighbours are incremented again. -/
def World.birth_cell (w : World) (x y : Nat) : World :=
  let w1 := w.setCell x y { w.cells x y with alive := true }
  w1.for_each_neighbour x y (fun wa xn yn => wa.setCell xn yn (wa.cells xn yn).inc)

/-- Method `World::kill_cell`: set dead, then decrement each wrapped neighbour's
count. No guard. -/
def World.kill_cell (w : World) (x y : Nat) : World :=
  let w1 := w.setCell x y { w.cells x y with alive := false }
  w1.for_each_neighbour x y (fun wa xn yn => wa.setCell xn yn (wa.cells xn yn).dec)

/-- Method `World::toggle_cell`. -/
def World.toggle_cell (w : World) (x y : Nat) : World :=
  if (w.cells x y).alive then w.kill_cell x y else w.birth_cell x y

/-- Method `World::simulate`: clone the world, then for `y in 0..(height-1)`,
`x in 0..(width-1)` (exclusive upper bounds, as in the Rust `for` loops)
apply the rule read entirely from the clone, mutating `self`. -/
def World.simulate (w : World) : World :=
  (List.range (w.height - 1)).foldl
    (fun wy y =>
      (List.range (w.width - 1)).foldl
        (fun wx x =>
          let cell := w.cells x y
          if cell.alive = true ∧
              (cell.live_neighbours_count < 2 ∨ cell.live_neighbours_count > 3) then
            wx.kill_cell x y
          else if cell.alive = false ∧ cell.live_neighbours_count = 3 then
            wx.birth_cell x y
          else wx)
        wy)
    w

/-- Method `World::seed_random`, with the RNG as an explicit stream of draws;
returns the seeded world and the number of draws consumed.  The loops run
`y in 0..(height-1)`, `x in 0..(width-1)`, one draw per iteration. -/
def World.seed_random_core (w : World) (stream : Nat → Bool) : World × Nat :=
  (List.range (w.height - 1)).foldl
    (fun py y =>
      (List.range (w.width - 1)).foldl
        (fun px x =>
          if stream px.2 then (px.1.birth_cell x y, px.2 + 1) else (px.1, px.2 + 1))
        py)
    (w, 0)

/-- Method `World::seed_random` (the resulting world). -/
def World.seed_random (w : World) (stream : Nat → Bool) : World :=
  (w.seed_random_core stream).1

/-- Bounds-checked `birth_cell`: `self.cells[y][x]` panics (`none`) when
`y ≥ height` or `x ≥ width`; in bounds, all further indexing is in bounds. -/
def World.birth_cell? (w : World) (x y : Nat) : Option World :=
  if x < w.width ∧ y < w.height then some (w.birth_cell x y) else none

/-- Bounds-checked `kill_cell`. -/
def World.kill_cell? (w : World) (x y : Nat) : Option World :=
  if x < w.width ∧ y < w.height then some (w.kill_cell x y) else none

/-- Bounds-checked `toggle_cell` (`self.cell(x, y)` indexes first). -/
def World.toggle_cell? (w : World) (x y : Nat) : Option World :=
  if x < w.width ∧ y < w.height then some (w.toggle_cell x y) else none

/-- Method `World::simulate` with the panic conditions of a zero dimension
(`height - 1`/`width - 1` underflow, or indexing an empty row) as `none`. -/
def World.simulate? (w : World) : Option World :=
  if 1 ≤ w.width ∧ 1 ≤ w.height then some w.simulate else none

/-- Method `World::seed_random` with the zero-dimension panic conditions as `none`. -/
def World.seed_random? (w : World) (stream : Nat → Bool) : Option World :=
  if 1 ≤ w.width ∧ 1 ≤ w.height then some (w.seed_random stream) else none

/-- Rust `str::trim`: drop whitespace characters from both ends. -/
def trimChars (l : List Char) : List Char :=
  ((l.dropWhile Char.isWhitespace).reverse.dropWhile Char.isWhitespace).reverse

/-- Rust `str::split` with a character separator: the (possibly empty)
chunks strictly between occurrences of `sep`. -/
def splitChar (sep : Char) (l : List Char) : List (List Char) :=
  l.foldr
    (fun c acc =>
      match acc with
      | [] => [[c]]
      | a :: rest => if c = sep then [] :: a :: rest else (c :: a) :: rest)
    [[]]

/-- Method `World::seed_from_string`: rows from `seed.trim().split('\n')`,
tokens from `row.trim().split(' ')`, a birth at `(x, y)` for each token equal
to `"#"`; out-of-bounds indexing in `birth_cell` panics (`none`), aborting
the rest of the seed.  The string is viewed as its character list. -/
def World.seed_from_string? (w : World) (seed : String) : Option World :=
  (splitChar '\n' (trimChars seed.data)).enum.foldlM
    (fun wa (p : Nat × List Char) =>
      (splitChar ' ' (trimChars p.2)).enum.foldlM
        (fun wb (q : Nat × List Char) =>
          if q.2 = ['#'] then wb.birth_cell? q.1 p.1 else some wb)
        wa)
    w

/-- The number of alive cells among the 8 wrapped Moore neighbours of
`(x, y)`, one contribution per offset (coincident wrapped positions count
once per offset). -/
def liveNeighbours (w : World) (x y : Nat) : Nat :=
  (OFFSETS.filter (fun off =>
    (w.cells (add_offset (w.width - 1) x off.1)
             (add_offset (w.height - 1) y off.2)).alive)).length

/-- The cached-count invariant: every in-bounds cell's
`live_neighbours_count` equals its number of alive wrapped neighbours. -/
def Inv (w : World) : Prop :=
  ∀ x, x < w.width → ∀ y, y < w.height →
    (w.cells x y).live_neighbours_count = liveNeighbours w x y

instance (w : World) : Decidable (Inv w) := by
  unfold Inv
  exact inferInstance

/-- The grid states reachable through the public operations
(`new`, `seed_from_string`, `seed_random`, `toggle_cell`, `simulate`),
along the non-panicking executions. -/
inductive Reachable : World → Prop where
  | new : ∀ width height, Reachable (World.new width height)
  | seed_from_string : ∀ w s w', Reachable w →
      w.seed_from_string? s = some w' → Reachable w'
  | seed_random : ∀ w stream w', Reachable w →
      w.seed_random? stream = some w' → Reachable w'
  | toggle_cell : ∀ w x y w', Reachable w →
      w.toggle_cell? x y = some w' → Reachable w'
  | simulate : ∀ w w', Reachable w →
      w.simulate? = some w' → Reachable w'

/-- Like `Reachable`, but each seeding operation is only applied to a grid
with no alive cells (for example immediately after construction). -/
inductive ReachableSafe : World → Prop where
  | new : ∀ width height, ReachableSafe (World.new width height)
  | seed_from_string : ∀ w s w', ReachableSafe w →
      (∀ p q, p < w.width → q < w.height → (w.cells p q).alive = false) →
      w.seed_from_string? s = some w' → ReachableSafe w'
  | seed_random : ∀ w stream w', ReachableSafe w →
      (∀ p q, p < w.width → q < w.height → (w.cells p q).alive = false) →
      w.seed_random? stream = some w' → ReachableSafe w'
  | toggle_cell : ∀ w x y w', ReachableSafe w →
      w.toggle_cell? x y = some w' → ReachableSafe w'
  | simulate : ∀ w w', ReachableSafe w →
      w.simulate? = some w' → ReachableSafe w'

/-- The wrapped neighbour coordinate of `(x, y)` at offset `o`. -/
def wrapNbr (w : World) (x y : Nat) (o : Int × Int) : Nat × Nat :=
  (add_offset (w.width - 1) x o.1, add_offset (w.height - 1) y o.2)

/-- The 8 wrapped neighbour coordinates of `(x, y)`, in `OFFSETS` order. -/
def neighbourCoords (w : World) (x y : Nat) : List (Nat × Nat) :=
  OFFSETS.map (wrapNbr w x y)

/-- How many entries of `l` equal `(p, q)`. -/
def hitCount (l : List (Nat × Nat)) (p q : Nat) : Nat :=
  (l.filter (fun c => c = (p, q))).length

/-- Increment the cached count at each coordinate of `l` in turn. -/
def incCells (w : World) (l : List (Nat × Nat)) : World :=
  l.foldl (fun wa c => wa.setCell c.1 c.2 ((wa.cells c.1 c.2).inc)) w

/-- Decrement the cached count at each coordinate of `l` in turn. -/
def decCells (w : World) (l : List (Nat × Nat)) : World :=
  l.foldl (fun wa c => wa.setCell c.1 c.2 ((wa.cells c.1 c.2).dec)) w

/-- One loop-body iteration of `simulate`: the rule applied at cell `c`,
reading the snapshot `old` and mutating `cur`. -/
def simStep (old cur : World) (c : Nat × Nat) : World :=
  let cell := old.cells c.1 c.2
  if cell.alive = true ∧
      (cell.live_neighbours_count < 2 ∨ cell.live_neighbours_count > 3) then
    cur.kill_cell c.1 c.2
  else if cell.alive = false ∧ cell.live_neighbours_count = 3 then
    cur.birth_cell c.1 c.2
  else cur

/-- The alive flag that the `simulate` rule produces from a snapshot cell. -/
def ruleAlive (cell : Cell) : Bool :=
  if cell.alive = true ∧
      (cell.live_neighbours_count < 2 ∨ cell.live_neighbours_count > 3) then
    false
  else if cell.alive = false ∧ cell.live_neighbours_count = 3 then
    true
  else cell.alive

/-- The cells visited by the `simulate` / `seed_random` loops, row-major:
`y` strictly below `height - 1`, `x` strictly below `width - 1`. -/
def visitList (width height : Nat) : List (Nat × Nat) :=
  (List.range (height - 1)).flatMap
    (fun y => (List.range (width - 1)).map (fun x => (x, y)))

/-- One loop-body iteration of `seed_random`: consume a draw, birth the cell
on `true`, and advance the draw counter. -/
def seedStep (stream : Nat → Bool) (p : World × Nat) (c : Nat × Nat) : World × Nat :=
  if stream p.2 then (p.1.birth_cell c.1 c.2, p.2 + 1) else (p.1, p.2 + 1)

/-- Whether some entry of `l` equal to `(p, q)` receives a `true` draw, the
draws being `stream k`, `stream (k+1)`, ... in list order. -/
def drawnAt (stream : Nat → Bool) : Nat → List (Nat × Nat) → Nat → Nat → Bool
  | _, [], _, _ => false
  | k, c :: t, p, q =>
      (decide (c = (p, q)) && stream k) || drawnAt stream (k + 1) t p q

/-- An always-true Bernoulli stream (every draw comes up alive). -/
def streamTrue : Nat → Bool := fun _ => true

/-- A 3x3 grid seeded randomly twice with an all-true stream: the second
seed births cells that are already alive. -/
def exW1 : World := ((World.new 3 3).seed_random streamTrue).seed_random streamTrue

/-- A 3x3 grid with alive cells (1,1), (1,2), (2,1): the corner (2,2) is
dead with exactly 3 alive neighbours. -/
def exW2 : World := (((World.new 3 3).toggle_cell 1 1).toggle_cell 1 2).toggle_cell 2 1

/-- A 3x3 grid with the single cell (0,0) alive. -/
def exW5 : World := (World.new 3 3).birth_cell 0 0

/-- A 4x4 grid with the four corner cells birthed. -/
def cornersWorld : World :=
  ((((World.new 4 4).birth_cell 0 0).birth_cell 3 0).birth_cell 0 3).birth_cell 3 3

/-- A 4x4 grid with a 2x2 block of alive cells at (1,1)-(2,2). -/
def blockWorld : World :=
  ((((World.new 4 4).birth_cell 1 1).birth_cell 2 1).birth_cell 1 2).birth_cell 2 2

end Gol

namespace Gol

theorem World.setCell_width (w : World) (x y : Nat) (c : Cell) :
    (w.setCell x y c).width = w.width := rfl

theorem World.setCell_height (w : World) (x y : Nat) (c : Cell) :
    (w.setCell x y c).height = w.height := rfl

theorem World.setCell_cells (w : World) (x y : Nat) (c : Cell) (p q : Nat) :
    (w.setCell x y c).cells p q = if p = x ∧ q = y then c else w.cells p q := rfl

theorem foldl_dims {α : Type} (g : World → α → World)
    (hg : ∀ wa a, (g wa a).width = wa.width ∧ (g wa a).height = wa.height) :
    ∀ (l : List α) (w : World),
      (l.foldl g w).width = w.width ∧ (l.foldl g w).height = w.height := by
  intro l
  induction l with
  | nil => intro w; exact ⟨rfl, rfl⟩
  | cons a t ih =>
      intro w
      have h1 := ih (g w a)
      have h2 := hg w a
      exact ⟨h1.1.trans h2.1, h1.2.trans h2.2⟩

theorem foldl_offsets_fixed {f : World → Nat → Nat → World}
    (hf : ∀ wa a b, (f wa a b).width = wa.width ∧ (f wa a b).height = wa.height)
    (x y : Nat) :
    ∀ (l : List (Int × Int)) (W0 w : World), W0.width = w.width → W0.height = w.height →
      l.foldl (fun wa off =>
        f wa (add_offset (wa.width - 1) x off.1) (add_offset (wa.height - 1) y off.2)) W0 =
      l.foldl (fun wa off =>
        f wa (add_offset (w.width - 1) x off.1) (add_offset (w.height - 1) y off.2)) W0 := by
  intro l
  induction l with
  | nil => intro W0 w _ _; rfl
  | cons a t ih =>
      intro W0 w hw hh
      simp only [List.foldl_cons]
      rw [hw, hh]
      exact ih _ w (((hf W0 _ _).1).trans hw) (((hf W0 _ _).2).trans hh)

theorem World.for_each_neighbour_eq (w : World) (x y : Nat)
    (f : World → Nat → Nat → World)
    (hf : ∀ wa a b, (f wa a b).width = wa.width ∧ (f wa a b).height = wa.height) :
    w.for_each_neighbour x y f =
      (neighbourCoords w x y).foldl (fun wa c => f wa c.1 c.2) w := by
  unfold World.for_each_neighbour neighbourCoords
  rw [List.foldl_map]
  exact foldl_offsets_fixed hf x y OFFSETS w w rfl rfl

theorem hitCount_cons (c : Nat × Nat) (t : List (Nat × Nat)) (p q : Nat) :
    hitCount (c :: t) p q = (if c = (p, q) then 1 else 0) + hitCount t p q := by
  unfold hitCount
  by_cases h : c = (p, q)
  · simp [List.filter_cons, h, Nat.add_comm]
  · simp [List.filter_cons, h]

theorem hitCount_eq_zero : ∀ {l : List (Nat × Nat)} {p q : Nat},
    (p, q) ∉ l → hitCount l p q = 0 := by
  intro l
  induction l with
  | nil => intro p q _; rfl
  | cons c t ih =>
      intro p q h
      rw [List.mem_cons] at h
      push_neg at h
      rw [hitCount_cons, if_neg (fun hc => h.1 hc.symm), ih h.2]

theorem incCells_alive : ∀ (l : List (Nat × Nat)) (w : World) (p q : Nat),
    ((incCells w l).cells p q).alive = (w.cells p q).alive := by
  intro l
  induction l with
  | nil => intro w p q; rfl
  | cons c t ih =>
      intro w p q
      unfold incCells at ih ⊢
      simp only [List.foldl_cons]
      rw [ih, World.setCell_cells]
      split
      next h => rw [h.1, h.2]; rfl
      next => rfl

theorem decCells_alive : ∀ (l : List (Nat × Nat)) (w : World) (p q : Nat),
    ((decCells w l).cells p q).alive = (w.cells p q).alive := by
  intro l
  induction l with
  | nil => intro w p q; rfl
  | cons c t ih =>
      intro w p q
      unfold decCells at ih ⊢
      simp only [List.foldl_cons]
      rw [ih, World.setCell_cells]
      split
      next h => rw [h.1, h.2]; rfl
      next => rfl

theorem incCells_count : ∀ (l : List (Nat × Nat)) (w : World) (p q : Nat),
    ((incCells w l).cells p q).live_neighbours_count =
      if (p, q) ∈ l then
        ((w.cells p q).live_neighbours_count + hitCount l p q) % 256
      else (w.cells p q).live_neighbours_count := by
  intro l
  induction l with
  | nil => intro w p q; simp [incCells]
  | cons c t ih =>
      intro w p q
      unfold incCells at ih ⊢
      simp only [List.foldl_cons]
      rw [ih, World.setCell_cells, hitCount_cons]
      by_cases hc : c = (p, q)
      · have hp : p = c.1 ∧ q = c.2 := by rw [hc]; exact ⟨rfl, rfl⟩
        have hmem : (p, q) ∈ c :: t := List.mem_cons.mpr (Or.inl hc.symm)
        rw [if_pos hc, if_pos hp, if_pos hmem]
        have hcell : ((w.cells c.1 c.2).inc).live_neighbours_count =
            ((w.cells p q).live_neighbours_count + 1) % 256 := by
          rw [hp.1, hp.2]; rfl
        by_cases ht : (p, q) ∈ t
        · rw [if_pos ht, hcell, Nat.mod_add_mod]
          congr 1
          omega
        · rw [if_neg ht, hcell, hitCount_eq_zero ht, Nat.add_zero]
      · have hp : ¬(p = c.1 ∧ q = c.2) := fun hpq => hc (by rw [hpq.1, hpq.2])
        rw [if_neg hc, if_neg hp]
        by_cases ht : (p, q) ∈ t
        · have hmem : (p, q) ∈ c :: t := List.mem_cons.mpr (Or.inr ht)
          rw [if_pos ht, if_pos hmem, Nat.zero_add]
        · have hmem : (p, q) ∉ c :: t := by
            rw [List.mem_cons]
            push_neg
            exact ⟨fun h => hc h.symm, ht⟩
          rw [if_neg ht, if_neg hmem]

theorem decCells_count : ∀ (l : List (Nat × Nat)) (w : World) (p q : Nat),
    ((decCells w l).cells p q).live_neighbours_count =
      if (p, q) ∈ l then
        ((w.cells p q).live_neighbours_count + 255 * hitCount l p q) % 256
      else (w.cells p q).live_neighbours_count := by
  intro l
  induction l with
  | nil => intro w p q; simp [decCells]
  | cons c t ih =>
      intro w p q
      unfold decCells at ih ⊢
      simp only [List.foldl_cons]
      rw [ih, World.setCell_cells, hitCount_cons]
      by_cases hc : c = (p, q)
      · have hp : p = c.1 ∧ q = c.2 := by rw [hc]; exact ⟨rfl, rfl⟩
        have hmem : (p, q) ∈ c :: t := List.mem_cons.mpr (Or.inl hc.symm)
        rw [if_pos hc, if_pos hp, if_pos hmem]
        have hcell : ((w.cells c.1 c.2).dec).live_neighbours_count =
            ((w.cells p q).live_neighbours_count + 255) % 256 := by
          rw [hp.1, hp.2]; rfl
        by_cases ht : (p, q) ∈ t
        · rw [if_pos ht, hcell, Nat.mod_add_mod]
          congr 1
          ring
        · rw [if_neg ht, hcell, hitCount_eq_zero ht]
      · have hp : ¬(p = c.1 ∧ q = c.2) := fun hpq => hc (by rw [hpq.1, hpq.2])
        rw [if_neg hc, if_neg hp]
        by_cases ht : (p, q) ∈ t
        · have hmem : (p, q) ∈ c :: t := List.mem_cons.mpr (Or.inr ht)
          rw [if_pos ht, if_pos hmem, Nat.zero_add]
        · have hmem : (p, q) ∉ c :: t := by
            rw [List.mem_cons]
            push_neg
            exact ⟨fun h => hc h.symm, ht⟩
          rw [if_neg ht, if_neg hmem]

theorem incCells_width (w : World) (l : List (Nat × Nat)) :
    (incCells w l).width = w.width := by
  unfold incCells
  exact (foldl_dims (fun wa c => wa.setCell c.1 c.2 (wa.cells c.1 c.2).inc)
    (fun _ _ => ⟨rfl, rfl⟩) l w).1

theorem incCells_height (w : World) (l : List (Nat × Nat)) :
    (incCells w l).height = w.height := by
  unfold incCells
  exact (foldl_dims (fun wa c => wa.setCell c.1 c.2 (wa.cells c.1 c.2).inc)
    (fun _ _ => ⟨rfl, rfl⟩) l w).2

theorem decCells_width (w : World) (l : List (Nat × Nat)) :
    (decCells w l).width = w.width := by
  unfold decCells
  exact (foldl_dims (fun wa c => wa.setCell c.1 c.2 (wa.cells c.1 c.2).dec)
    (fun _ _ => ⟨rfl, rfl⟩) l w).1

theorem decCells_height (w : World) (l : List (Nat × Nat)) :
    (decCells w l).height = w.height := by
  unfold decCells
  exact (foldl_dims (fun wa c => wa.setCell c.1 c.2 (wa.cells c.1 c.2).dec)
    (fun _ _ => ⟨rfl, rfl⟩) l w).2

theorem World.birth_cell_eq (w : World) (x y : Nat) :
    w.birth_cell x y =
      incCells (w.setCell x y { w.cells x y with alive := true })
        (neighbourCoords w x y) := by
  have h : w.birth_cell x y =
      (w.setCell x y { w.cells x y with alive := true }).for_each_neighbour x y
        (fun wa xn yn => wa.setCell xn yn (wa.cells xn yn).inc) := rfl
  rw [h, World.for_each_neighbour_eq _ x y
    (fun wa xn yn => wa.setCell xn yn (wa.cells xn yn).inc) (fun _ _ _ => ⟨rfl, rfl⟩)]
  rfl

theorem World.kill_cell_eq (w : World) (x y : Nat) :
    w.kill_cell x y =
      decCells (w.setCell x y { w.cells x y with alive := false })
        (neighbourCoords w x y) := by
  have h : w.kill_cell x y =
      (w.setCell x y { w.cells x y with alive := false }).for_each_neighbour x y
        (fun wa xn yn => wa.setCell xn yn (wa.cells xn yn).dec) := rfl
  rw [h, World.for_each_neighbour_eq _ x y
    (fun wa xn yn => wa.setCell xn yn (wa.cells xn yn).dec) (fun _ _ _ => ⟨rfl, rfl⟩)]
  rfl

theorem World.birth_cell_width (w : World) (x y : Nat) :
    (w.birth_cell x y).width = w.width := by
  rw [World.birth_cell_eq, incCells_width]
  rfl

theorem World.birth_cell_height (w : World) (x y : Nat) :
    (w.birth_cell x y).height = w.height := by
  rw [World.birth_cell_eq, incCells_height]
  rfl

theorem World.kill_cell_width (w : World) (x y : Nat) :
    (w.kill_cell x y).width = w.width := by
  rw [World.kill_cell_eq, decCells_width]
  rfl

theorem World.kill_cell_height (w : World) (x y : Nat) :
    (w.kill_cell x y).height = w.height := by
  rw [World.kill_cell_eq, decCells_height]
  rfl

theorem World.toggle_cell_width (w : World) (x y : Nat) :
    (w.toggle_cell x y).width = w.width := by
  unfold World.toggle_cell
  split
  · exact w.kill_cell_width x y
  · exact w.birth_cell_width x y

theorem World.toggle_cell_height (w : World) (x y : Nat) :
    (w.toggle_cell x y).height = w.height := by
  unfold World.toggle_cell
  split
  · exact w.kill_cell_height x y
  · exact w.birth_cell_height x y

theorem World.birth_cell_alive (w : World) (x y p q : Nat) :
    ((w.birth_cell x y).cells p q).alive =
      if p = x ∧ q = y then true else (w.cells p q).alive := by
  rw [World.birth_cell_eq, incCells_alive, World.setCell_cells]
  split
  next => rfl
  next => rfl

theorem World.kill_cell_alive (w : World) (x y p q : Nat) :
    ((w.kill_cell x y).cells p q).alive =
      if p = x ∧ q = y then false else (w.cells p q).alive := by
  rw [World.kill_cell_eq, decCells_alive, World.setCell_cells]
  split
  next => rfl
  next => rfl

theorem World.birth_cell_count (w : World) (x y p q : Nat) :
    ((w.birth_cell x y).cells p q).live_neighbours_count =
      if (p, q) ∈ neighbourCoords w x y then
        ((w.cells p q).live_neighbours_count +
          hitCount (neighbourCoords w x y) p q) % 256
      else (w.cells p q).live_neighbours_count := by
  rw [World.birth_cell_eq, incCells_count]
  have hc : ∀ p0 q0 : Nat,
      ((w.setCell x y { w.cells x y with alive := true }).cells p0 q0).live_neighbours_count =
        (w.cells p0 q0).live_neighbours_count := by
    intro p0 q0
    rw [World.setCell_cells]
    split
    next h => rw [h.1, h.2]
    next => rfl
  simp only [hc]

theorem World.kill_cell_count (w : World) (x y p q : Nat) :
    ((w.kill_cell x y).cells p q).live_neighbours_count =
      if (p, q) ∈ neighbourCoords w x y then
        ((w.cells p q).live_neighbours_count +
          255 * hitCount (neighbourCoords w x y) p q) % 256
      else (w.cells p q).live_neighbours_count := by
  rw [World.kill_cell_eq, decCells_count]
  have hc : ∀ p0 q0 : Nat,
      ((w.setCell x y { w.cells x y with alive := false }).cells p0 q0).live_neighbours_count =
        (w.cells p0 q0).live_neighbours_count := by
    intro p0 q0
    rw [World.setCell_cells]
    split
    next h => rw [h.1, h.2]
    next => rfl
  simp only [hc]

theorem add_offset_le (max n : Nat) (offset : Int) : add_offset max n offset ≤ max := by
  simp only [add_offset]
  split_ifs <;> omega

theorem add_offset_zero (max n : Nat) (hn : n ≤ max) : add_offset max n 0 = n := by
  simp only [add_offset]
  split_ifs <;> omega

theorem add_offset_one (max n : Nat) (hn : n ≤ max) :
    add_offset max n 1 = if n = max then 0 else n + 1 := by
  simp only [add_offset]
  split_ifs <;> omega

theorem add_offset_neg_one (max n : Nat) (hn : n ≤ max) :
    add_offset max n (-1) = if n = 0 then max else n - 1 := by
  simp only [add_offset]
  split_ifs <;> omega

theorem add_offset_symm (max x p : Nat) (o : Int) (hx : x ≤ max) (hp : p ≤ max)
    (ho : o = -1 ∨ o = 0 ∨ o = 1) :
    add_offset max x o = p ↔ add_offset max p (-o) = x := by
  rcases ho with h | h | h <;> subst h
  · rw [add_offset_neg_one max x hx, show -(-1 : Int) = 1 by norm_num,
      add_offset_one max p hp]
    split_ifs <;> omega
  · rw [show -(0 : Int) = 0 by norm_num, add_offset_zero max x hx,
      add_offset_zero max p hp]
    omega
  · rw [add_offset_one max x hx, show -(1 : Int) = -1 by norm_num,
      add_offset_neg_one max p hp]
    split_ifs <;> omega

theorem OFFSETS_neg_perm :
    (OFFSETS.map (fun o => (-o.1, -o.2))).Perm OFFSETS := by decide

theorem OFFSETS_components : ∀ o ∈ OFFSETS,
    (o.1 = -1 ∨ o.1 = 0 ∨ o.1 = 1) ∧ (o.2 = -1 ∨ o.2 = 0 ∨ o.2 = 1) := by decide


theorem countP_or_disjoint {α : Type} (a b : α → Bool) :
    ∀ l : List α, (∀ c ∈ l, ¬(a c = true ∧ b c = true)) →
      l.countP (fun c => a c || b c) = l.countP a + l.countP b := by
  intro l
  induction l with
  | nil => intro _; rfl
  | cons c t ih =>
      intro h
      have hc := h c (List.mem_cons_self c t)
      have ht := ih (fun d hd => h d (List.mem_cons_of_mem c hd))
      simp only [List.countP_cons, ht]
      cases hac : a c <;> cases hbc : b c
      · simp [hac, hbc]
      · simp [hac, hbc]
        omega
      · simp [hac, hbc]
        omega
      · exact absurd ⟨hac, hbc⟩ hc

theorem countP_sub_of_imp {α : Type} (a b : α → Bool) :
    ∀ l : List α, (∀ c ∈ l, b c = true → a c = true) →
      l.countP (fun c => a c && !(b c)) = l.countP a - l.countP b := by
  intro l
  induction l with
  | nil => intro _; rfl
  | cons c t ih =>
      intro h
      have hc := h c (List.mem_cons_self c t)
      have hmono : t.countP b ≤ t.countP a :=
        List.countP_mono_left (fun d hd hb => h d (List.mem_cons_of_mem c hd) hb)
      have ht := ih (fun d hd => h d (List.mem_cons_of_mem c hd))
      simp only [List.countP_cons, ht]
      cases hac : a c <;> cases hbc : b c
      · simp [hac, hbc]
      · have hcontra := hc hbc
        rw [hac] at hcontra
        exact Bool.noConfusion hcontra
      · simp [hac, hbc]
        omega
      · simp [hac, hbc]

theorem liveNeighbours_le (w : World) (x y : Nat) : liveNeighbours w x y ≤ 8 := by
  unfold liveNeighbours
  exact List.length_filter_le _ _

theorem liveNeighbours_eq_countP (w : World) (x y : Nat) :
    liveNeighbours w x y =
      OFFSETS.countP (fun o =>
        (w.cells (wrapNbr w x y o).1 (wrapNbr w x y o).2).alive) := by
  unfold liveNeighbours
  rw [List.countP_eq_length_filter]
  rfl

theorem hitCount_le (w : World) (x y p q : Nat) :
    hitCount (neighbourCoords w x y) p q ≤ 8 := by
  unfold hitCount neighbourCoords
  have h := List.length_filter_le (fun c => decide (c = (p, q)))
    (OFFSETS.map (wrapNbr w x y))
  simpa using h

theorem hitCount_neighbourCoords (w : World) (x y p q : Nat) :
    hitCount (neighbourCoords w x y) p q =
      OFFSETS.countP (fun o => wrapNbr w x y o = (p, q)) := by
  unfold hitCount neighbourCoords
  rw [← List.countP_eq_length_filter, List.countP_map]
  rfl


theorem hitCount_symm (w : World) (x y p q : Nat)
    (hx : x ≤ w.width - 1) (hy : y ≤ w.height - 1)
    (hp : p ≤ w.width - 1) (hq : q ≤ w.height - 1) :
    hitCount (neighbourCoords w x y) p q = hitCount (neighbourCoords w p q) x y := by
  rw [hitCount_neighbourCoords, hitCount_neighbourCoords]
  have key : ∀ o ∈ OFFSETS,
      (decide (wrapNbr w x y (-o.1, -o.2) = (p, q))) =
        (decide (wrapNbr w p q o = (x, y))) := by
    intro o ho
    have hcomp := OFFSETS_components o ho
    have h1 := add_offset_symm (w.width - 1) p x o.1 hp hx hcomp.1
    have h2 := add_offset_symm (w.height - 1) q y o.2 hq hy hcomp.2
    rw [decide_eq_decide]
    simp only [wrapNbr, Prod.mk.injEq]
    exact and_congr h1.symm h2.symm
  calc OFFSETS.countP (fun o => decide (wrapNbr w x y o = (p, q)))
      = (OFFSETS.map (fun o => (-o.1, -o.2))).countP
          (fun o => decide (wrapNbr w x y o = (p, q))) :=
        (OFFSETS_neg_perm.countP_eq _).symm
    _ = OFFSETS.countP (fun o => decide (wrapNbr w x y (-o.1, -o.2) = (p, q))) :=
        List.countP_map _ _ _
    _ = OFFSETS.countP (fun o => decide (wrapNbr w p q o = (x, y))) :=
        List.countP_congr (fun o ho => by rw [key o ho])

theorem liveNeighbours_congr (w1 w2 : World) (hW : w1.width = w2.width)
    (hH : w1.height = w2.height)
    (ha : ∀ p q, (w1.cells p q).alive = (w2.cells p q).alive) (x y : Nat) :
    liveNeighbours w1 x y = liveNeighbours w2 x y := by
  unfold liveNeighbours
  rw [hW, hH]
  congr 1
  apply List.filter_congr
  intro o _
  rw [ha]

theorem liveNeighbours_set_true (w : World) (x y : Nat)
    (hdead : (w.cells x y).alive = false) (p q : Nat) :
    liveNeighbours (w.setCell x y { w.cells x y with alive := true }) p q =
      liveNeighbours w p q + hitCount (neighbourCoords w p q) x y := by
  rw [liveNeighbours_eq_countP, liveNeighbours_eq_countP, hitCount_neighbourCoords]
  have hstep : ∀ o ∈ OFFSETS,
      (((w.setCell x y { w.cells x y with alive := true }).cells
          (wrapNbr (w.setCell x y { w.cells x y with alive := true }) p q o).1
          (wrapNbr (w.setCell x y { w.cells x y with alive := true }) p q o).2).alive) =
        ((w.cells (wrapNbr w p q o).1 (wrapNbr w p q o).2).alive ||
          decide (wrapNbr w p q o = (x, y))) := by
    intro o _
    have hw : wrapNbr (w.setCell x y { w.cells x y with alive := true }) p q o =
        wrapNbr w p q o := rfl
    rw [hw, World.setCell_cells]
    by_cases hxy : (wrapNbr w p q o).1 = x ∧ (wrapNbr w p q o).2 = y
    · rw [if_pos hxy, decide_eq_true_eq.mpr ?hmem]
      · simp
      case hmem =>
        cases hxy with
        | intro h1 h2 => rw [Prod.ext_iff]; exact ⟨h1, h2⟩
    · rw [if_neg hxy]
      have hfalse : decide (wrapNbr w p q o = (x, y)) = false := by
        rw [decide_eq_false_iff_not]
        intro hcontra
        rw [Prod.ext_iff] at hcontra
        exact hxy ⟨hcontra.1, hcontra.2⟩
      rw [hfalse, Bool.or_false]
  rw [List.countP_congr (fun o ho => by rw [hstep o ho])]
  apply countP_or_disjoint
  intro o _ hcontra
  have heq := of_decide_eq_true hcontra.2
  rw [heq] at hcontra
  rw [hdead] at hcontra
  exact Bool.noConfusion hcontra.1

theorem liveNeighbours_set_false (w : World) (x y : Nat)
    (halive : (w.cells x y).alive = true) (p q : Nat) :
    liveNeighbours (w.setCell x y { w.cells x y with alive := false }) p q =
      liveNeighbours w p q - hitCount (neighbourCoords w p q) x y := by
  rw [liveNeighbours_eq_countP, liveNeighbours_eq_countP, hitCount_neighbourCoords]
  have hstep : ∀ o ∈ OFFSETS,
      (((w.setCell x y { w.cells x y with alive := false }).cells
          (wrapNbr (w.setCell x y { w.cells x y with alive := false }) p q o).1
          (wrapNbr (w.setCell x y { w.cells x y with alive := false }) p q o).2).alive) =
        ((w.cells (wrapNbr w p q o).1 (wrapNbr w p q o).2).alive &&
          !(decide (wrapNbr w p q o = (x, y)))) := by
    intro o _
    have hw : wrapNbr (w.setCell x y { w.cells x y with alive := false }) p q o =
        wrapNbr w p q o := rfl
    rw [hw, World.setCell_cells]
    by_cases hxy : (wrapNbr w p q o).1 = x ∧ (wrapNbr w p q o).2 = y
    · rw [if_pos hxy, decide_eq_true_eq.mpr ?hmem]
      · simp
      case hmem =>
        cases hxy with
        | intro h1 h2 => rw [Prod.ext_iff]; exact ⟨h1, h2⟩
    · rw [if_neg hxy]
      have hfalse : decide (wrapNbr w p q o = (x, y)) = false := by
        rw [decide_eq_false_iff_not]
        intro hcontra
        rw [Prod.ext_iff] at hcontra
        exact hxy ⟨hcontra.1, hcontra.2⟩
      rw [hfalse]
      simp
  rw [List.countP_congr (fun o ho => by rw [hstep o ho])]
  apply countP_sub_of_imp
  intro o _ hb
  have heq := of_decide_eq_true hb
  rw [heq]
  exact halive


theorem liveNeighbours_new (W H x y : Nat) : liveNeighbours (World.new W H) x y = 0 := by
  simp [liveNeighbours, World.new, Cell.new]

theorem Inv_new (W H : Nat) : Inv (World.new W H) := by
  intro x _ y _
  rw [liveNeighbours_new]
  rfl

theorem Inv_birth_of_dead (w : World) (x y : Nat) (hw : Inv w)
    (hx : x < w.width) (hy : y < w.height)
    (hdead : (w.cells x y).alive = false) :
    Inv (w.birth_cell x y) := by
  intro p hp q hq
  rw [World.birth_cell_width] at hp
  rw [World.birth_cell_height] at hq
  rw [World.birth_cell_count]
  have halive : ∀ a b : Nat, ((w.birth_cell x y).cells a b).alive =
      ((w.setCell x y { w.cells x y with alive := true }).cells a b).alive := by
    intro a b
    rw [World.birth_cell_alive, World.setCell_cells]
    by_cases hab : a = x ∧ b = y
    · rw [if_pos hab, if_pos hab]
    · rw [if_neg hab, if_neg hab]
  have hln : liveNeighbours (w.birth_cell x y) p q =
      liveNeighbours (w.setCell x y { w.cells x y with alive := true }) p q :=
    liveNeighbours_congr _ _ (by rw [World.birth_cell_width]; rfl)
      (by rw [World.birth_cell_height]; rfl) halive p q
  rw [hln, liveNeighbours_set_true w x y hdead p q]
  have hsymm := hitCount_symm w x y p q (by omega) (by omega) (by omega) (by omega)
  have hcount := hw p hp q hq
  have hle1 := liveNeighbours_le w p q
  have hle2 := hitCount_le w x y p q
  by_cases hmem : (p, q) ∈ neighbourCoords w x y
  · rw [if_pos hmem, hcount, ← hsymm]
    have hlt : liveNeighbours w p q + hitCount (neighbourCoords w x y) p q < 256 := by
      omega
    rw [Nat.mod_eq_of_lt hlt]
  · rw [if_neg hmem, hcount, ← hsymm, hitCount_eq_zero hmem]
    omega

theorem Inv_kill_of_alive (w : World) (x y : Nat) (hw : Inv w)
    (hx : x < w.width) (hy : y < w.height)
    (halive0 : (w.cells x y).alive = true) :
    Inv (w.kill_cell x y) := by
  intro p hp q hq
  rw [World.kill_cell_width] at hp
  rw [World.kill_cell_height] at hq
  rw [World.kill_cell_count]
  have halive : ∀ a b : Nat, ((w.kill_cell x y).cells a b).alive =
      ((w.setCell x y { w.cells x y with alive := false }).cells a b).alive := by
    intro a b
    rw [World.kill_cell_alive, World.setCell_cells]
    by_cases hab : a = x ∧ b = y
    · rw [if_pos hab, if_pos hab]
    · rw [if_neg hab, if_neg hab]
  have hln : liveNeighbours (w.kill_cell x y) p q =
      liveNeighbours (w.setCell x y { w.cells x y with alive := false }) p q :=
    liveNeighbours_congr _ _ (by rw [World.kill_cell_width]; rfl)
      (by rw [World.kill_cell_height]; rfl) halive p q
  rw [hln, liveNeighbours_set_false w x y halive0 p q]
  have hsymm := hitCount_symm w x y p q (by omega) (by omega) (by omega) (by omega)
  have hcount := hw p hp q hq
  have hle1 := liveNeighbours_le w p q
  have hle2 := hitCount_le w x y p q
  have hsub : hitCount (neighbourCoords w p q) x y ≤ liveNeighbours w p q := by
    rw [hitCount_neighbourCoords, liveNeighbours_eq_countP]
    apply List.countP_mono_left
    intro o ho hb
    have heq := of_decide_eq_true hb
    rw [heq]
    exact halive0
  rw [← hsymm] at hsub
  by_cases hmem : (p, q) ∈ neighbourCoords w x y
  · rw [if_pos hmem, hcount, ← hsymm]
    omega
  · rw [if_neg hmem, hcount, ← hsymm, hitCount_eq_zero hmem]
    omega

theorem Inv_toggle (w : World) (x y : Nat) (hw : Inv w)
    (hx : x < w.width) (hy : y < w.height) :
    Inv (w.toggle_cell x y) := by
  unfold World.toggle_cell
  split
  next h => exact Inv_kill_of_alive w x y hw hx hy h
  next h =>
    have hdead : (w.cells x y).alive = false := by
      cases hb : (w.cells x y).alive
      · rfl
      · exact absurd hb h
    exact Inv_birth_of_dead w x y hw hx hy hdead


theorem foldl_flatten {α β σ : Type} (g : σ → β → σ) (f : α → List β) :
    ∀ (l : List α) (init : σ),
      (l.flatMap f).foldl g init =
        l.foldl (fun acc a => (f a).foldl g acc) init := by
  intro l
  induction l with
  | nil => intro init; rfl
  | cons a t ih =>
      intro init
      rw [List.flatMap_cons, List.foldl_append, List.foldl_cons, ih]

theorem World.simulate_eq (w : World) :
    w.simulate = (visitList w.width w.height).foldl (simStep w) w := by
  unfold visitList
  rw [foldl_flatten]
  show (List.range (w.height - 1)).foldl
      (fun wy y =>
        (List.range (w.width - 1)).foldl (fun wx x => simStep w wx (x, y)) wy) w = _
  congr 1
  funext acc y
  rw [List.foldl_map]

theorem simStep_width (old cur : World) (c : Nat × Nat) :
    (simStep old cur c).width = cur.width := by
  simp only [simStep]
  split
  · exact cur.kill_cell_width c.1 c.2
  · split
    · exact cur.birth_cell_width c.1 c.2
    · rfl

theorem simStep_height (old cur : World) (c : Nat × Nat) :
    (simStep old cur c).height = cur.height := by
  simp only [simStep]
  split
  · exact cur.kill_cell_height c.1 c.2
  · split
    · exact cur.birth_cell_height c.1 c.2
    · rfl

theorem simStep_alive_other (old cur : World) (c : Nat × Nat) (p q : Nat)
    (h : ¬(p = c.1 ∧ q = c.2)) :
    ((simStep old cur c).cells p q).alive = (cur.cells p q).alive := by
  simp only [simStep]
  split
  · rw [World.kill_cell_alive, if_neg h]
  · split
    · rw [World.birth_cell_alive, if_neg h]
    · rfl

theorem simStep_alive_self (old cur : World) (c : Nat × Nat)
    (hcons : (cur.cells c.1 c.2).alive = (old.cells c.1 c.2).alive) :
    ((simStep old cur c).cells c.1 c.2).alive = ruleAlive (old.cells c.1 c.2) := by
  simp only [simStep, ruleAlive]
  split
  · rw [World.kill_cell_alive, if_pos ⟨rfl, rfl⟩]
  · split
    · rw [World.birth_cell_alive, if_pos ⟨rfl, rfl⟩]
    · exact hcons

theorem simFold_alive (old : World) :
    ∀ (l : List (Nat × Nat)) (cur : World), l.Nodup →
      (∀ c ∈ l, (cur.cells c.1 c.2).alive = (old.cells c.1 c.2).alive) →
      ∀ p q : Nat,
        ((l.foldl (simStep old) cur).cells p q).alive =
          if (p, q) ∈ l then ruleAlive (old.cells p q)
          else (cur.cells p q).alive := by
  intro l
  induction l with
  | nil => intro cur _ _ p q; simp
  | cons c t ih =>
      intro cur hnd hcons p q
      rw [List.nodup_cons] at hnd
      have hcons1 : ∀ d ∈ t,
          (((simStep old cur c).cells d.1 d.2).alive = (old.cells d.1 d.2).alive) := by
        intro d hd
        have hne : ¬(d.1 = c.1 ∧ d.2 = c.2) := by
          intro hdc
          apply hnd.1
          have : d = c := by
            rw [Prod.ext_iff]
            exact hdc
          rw [← this]
          exact hd
        rw [simStep_alive_other old cur c d.1 d.2 hne]
        exact hcons d (List.mem_cons_of_mem c hd)
      rw [List.foldl_cons, ih (simStep old cur c) hnd.2 hcons1 p q]
      by_cases hpc : (p, q) = c
      · have hpt : (p, q) ∉ t := by
          rw [hpc]
          exact hnd.1
        have hmem : (p, q) ∈ c :: t := List.mem_cons.mpr (Or.inl hpc)
        rw [if_neg hpt, if_pos hmem]
        have hc1 : p = c.1 := by rw [← hpc]
        have hc2 : q = c.2 := by rw [← hpc]
        rw [hc1, hc2]
        exact simStep_alive_self old cur c (hcons c (List.mem_cons_self c t))
      · by_cases hpt : (p, q) ∈ t
        · rw [if_pos hpt, if_pos (List.mem_cons.mpr (Or.inr hpt))]
        · have hmem : (p, q) ∉ c :: t := by
            rw [List.mem_cons]
            push_neg
            exact ⟨hpc, hpt⟩
          rw [if_neg hpt, if_neg hmem]
          apply simStep_alive_other
          intro hdc
          apply hpc
          rw [Prod.ext_iff]
          exact hdc

theorem simFold_Inv (old : World) :
    ∀ (l : List (Nat × Nat)) (cur : World), l.Nodup →
      (∀ c ∈ l, c.1 < cur.width ∧ c.2 < cur.height) →
      (∀ c ∈ l, (cur.cells c.1 c.2).alive = (old.cells c.1 c.2).alive) →
      Inv cur → Inv (l.foldl (simStep old) cur) := by
  intro l
  induction l with
  | nil => intro cur _ _ _ hInv; exact hInv
  | cons c t ih =>
      intro cur hnd hb hcons hInv
      rw [List.nodup_cons] at hnd
      have hbc := hb c (List.mem_cons_self c t)
      have hconsc := hcons c (List.mem_cons_self c t)
      have hInv1 : Inv (simStep old cur c) := by
        simp only [simStep]
        split
        next hcond =>
          apply Inv_kill_of_alive cur c.1 c.2 hInv hbc.1 hbc.2
          rw [hconsc]
          exact hcond.1
        next =>
          split
          next hcond =>
            apply Inv_birth_of_dead cur c.1 c.2 hInv hbc.1 hbc.2
            rw [hconsc]
            exact hcond.1
          next => exact hInv
      have hb1 : ∀ d ∈ t, d.1 < (simStep old cur c).width ∧
          d.2 < (simStep old cur c).height := by
        intro d hd
        rw [simStep_width, simStep_height]
        exact hb d (List.mem_cons_of_mem c hd)
      have hcons1 : ∀ d ∈ t,
          (((simStep old cur c).cells d.1 d.2).alive = (old.cells d.1 d.2).alive) := by
        intro d hd
        have hne : ¬(d.1 = c.1 ∧ d.2 = c.2) := by
          intro hdc
          apply hnd.1
          have hdceq : d = c := by
            rw [Prod.ext_iff]
            exact hdc
          rw [← hdceq]
          exact hd
        rw [simStep_alive_other old cur c d.1 d.2 hne]
        exact hcons d (List.mem_cons_of_mem c hd)
      rw [List.foldl_cons]
      exact ih (simStep old cur c) hnd.2 hb1 hcons1 hInv1

theorem mem_visitList (width height : Nat) (c : Nat × Nat) :
    c ∈ visitList width height ↔ c.1 < width - 1 ∧ c.2 < height - 1 := by
  unfold visitList
  rw [List.mem_flatMap]
  constructor
  · rintro ⟨y, hy, hx⟩
    rw [List.mem_range] at hy
    rw [List.mem_map] at hx
    obtain ⟨x, hx1, hx2⟩ := hx
    rw [List.mem_range] at hx1
    rw [← hx2]
    exact ⟨hx1, hy⟩
  · rintro ⟨h1, h2⟩
    refine ⟨c.2, List.mem_range.mpr h2, List.mem_map.mpr ⟨c.1, List.mem_range.mpr h1, ?_⟩⟩
    exact Prod.mk.eta

theorem visitList_nodup (width height : Nat) : (visitList width height).Nodup := by
  unfold visitList
  rw [List.nodup_flatMap]
  constructor
  · intro y _
    exact (List.nodup_range _).map (fun x1 x2 hx => by
      have := Prod.mk.injEq x1 y x2 y ▸ hx
      rw [Prod.mk.injEq] at hx
      exact hx.1)
  · apply (List.nodup_range (height - 1)).imp
    intro a b hab
    rw [Function.onFun, List.disjoint_left]
    intro z hza hzb
    rw [List.mem_map] at hza hzb
    obtain ⟨x1, _, h1⟩ := hza
    obtain ⟨x2, _, h2⟩ := hzb
    apply hab
    rw [← h1] at h2
    rw [Prod.mk.injEq] at h2
    exact h2.2.symm

theorem World.simulate_width (w : World) : w.simulate.width = w.width := by
  rw [World.simulate_eq]
  exact (foldl_dims (simStep w)
    (fun wa c => ⟨simStep_width w wa c, simStep_height w wa c⟩) _ w).1

theorem World.simulate_height (w : World) : w.simulate.height = w.height := by
  rw [World.simulate_eq]
  exact (foldl_dims (simStep w)
    (fun wa c => ⟨simStep_width w wa c, simStep_height w wa c⟩) _ w).2

theorem World.simulate_alive (w : World) (p q : Nat) :
    ((w.simulate).cells p q).alive =
      if p < w.width - 1 ∧ q < w.height - 1 then ruleAlive (w.cells p q)
      else (w.cells p q).alive := by
  rw [World.simulate_eq,
    simFold_alive w (visitList w.width w.height) w
      (visitList_nodup _ _) (fun c _ => rfl) p q]
  by_cases h : p < w.width - 1 ∧ q < w.height - 1
  · rw [if_pos ((mem_visitList _ _ (p, q)).mpr h), if_pos h]
  · rw [if_neg (fun hm => h ((mem_visitList _ _ (p, q)).mp hm)), if_neg h]

theorem Inv_simulate (w : World) (hw : Inv w) : Inv w.simulate := by
  rw [World.simulate_eq]
  apply simFold_Inv w (visitList w.width w.height) w (visitList_nodup _ _)
  · intro c hc
    have hm := (mem_visitList _ _ c).mp hc
    omega
  · intro c _
    rfl
  · exact hw


theorem Cell.eq_of_field_eq {c1 c2 : Cell} (h1 : c1.alive = c2.alive)
    (h2 : c1.live_neighbours_count = c2.live_neighbours_count) : c1 = c2 := by
  cases c1
  cases c2
  simp_all

theorem World.eq_of_fields {w1 w2 : World} (hW : w1.width = w2.width)
    (hH : w1.height = w2.height) (hc : ∀ p q, w1.cells p q = w2.cells p q) :
    w1 = w2 := by
  cases w1
  cases w2
  have hcells := funext (fun p => funext (fun q => hc p q))
  simp_all

theorem neighbourCoords_congr (w1 w2 : World) (hW : w1.width = w2.width)
    (hH : w1.height = w2.height) (x y : Nat) :
    neighbourCoords w1 x y = neighbourCoords w2 x y := by
  unfold neighbourCoords wrapNbr
  rw [hW, hH]

theorem mem_neighbourCoords_bounds {w : World} {x y : Nat} {c : Nat × Nat}
    (hc : c ∈ neighbourCoords w x y) (hW : 1 ≤ w.width) (hH : 1 ≤ w.height) :
    c.1 < w.width ∧ c.2 < w.height := by
  unfold neighbourCoords at hc
  rw [List.mem_map] at hc
  obtain ⟨o, _, ho⟩ := hc
  rw [← ho]
  unfold wrapNbr
  constructor
  · have := add_offset_le (w.width - 1) x o.1
    omega
  · have := add_offset_le (w.height - 1) y o.2
    omega

theorem World.birth_kill_id (w : World) (x y : Nat) (hw : Inv w)
    (hx : x < w.width) (hy : y < w.height)
    (hdead : (w.cells x y).alive = false) :
    (w.birth_cell x y).kill_cell x y = w := by
  apply World.eq_of_fields
  · rw [World.kill_cell_width, World.birth_cell_width]
  · rw [World.kill_cell_height, World.birth_cell_height]
  · intro p q
    have hnc : neighbourCoords (w.birth_cell x y) x y = neighbourCoords w x y :=
      neighbourCoords_congr _ _ (World.birth_cell_width w x y)
        (World.birth_cell_height w x y) x y
    apply Cell.eq_of_field_eq
    · rw [World.kill_cell_alive, World.birth_cell_alive]
      by_cases hpq : p = x ∧ q = y
      · rw [if_pos hpq, hpq.1, hpq.2, hdead]
      · rw [if_neg hpq, if_neg hpq]
    · rw [World.kill_cell_count, World.birth_cell_count, hnc]
      by_cases hmem : (p, q) ∈ neighbourCoords w x y
      · rw [if_pos hmem, if_pos hmem]
        have hb := mem_neighbourCoords_bounds hmem (by omega) (by omega)
        have hcb : (w.cells p q).live_neighbours_count ≤ 8 := by
          rw [hw p hb.1 q hb.2]
          exact liveNeighbours_le w p q
        have hhb := hitCount_le w x y p q
        omega
      · rw [if_neg hmem, if_neg hmem]

theorem World.kill_birth_id (w : World) (x y : Nat) (hw : Inv w)
    (hx : x < w.width) (hy : y < w.height)
    (halive : (w.cells x y).alive = true) :
    (w.kill_cell x y).birth_cell x y = w := by
  apply World.eq_of_fields
  · rw [World.birth_cell_width, World.kill_cell_width]
  · rw [World.birth_cell_height, World.kill_cell_height]
  · intro p q
    have hnc : neighbourCoords (w.kill_cell x y) x y = neighbourCoords w x y :=
      neighbourCoords_congr _ _ (World.kill_cell_width w x y)
        (World.kill_cell_height w x y) x y
    apply Cell.eq_of_field_eq
    · rw [World.birth_cell_alive, World.kill_cell_alive]
      by_cases hpq : p = x ∧ q = y
      · rw [if_pos hpq, hpq.1, hpq.2, halive]
      · rw [if_neg hpq, if_neg hpq]
    · rw [World.birth_cell_count, World.kill_cell_count, hnc]
      by_cases hmem : (p, q) ∈ neighbourCoords w x y
      · rw [if_pos hmem, if_pos hmem]
        have hb := mem_neighbourCoords_bounds hmem (by omega) (by omega)
        have hcb : (w.cells p q).live_neighbours_count ≤ 8 := by
          rw [hw p hb.1 q hb.2]
          exact liveNeighbours_le w p q
        have hhb := hitCount_le w x y p q
        omega
      · rw [if_neg hmem, if_neg hmem]

theorem World.toggle_toggle (w : World) (x y : Nat) (hw : Inv w)
    (hx : x < w.width) (hy : y < w.height) :
    (w.toggle_cell x y).toggle_cell x y = w := by
  cases h : (w.cells x y).alive
  · have h1 : w.toggle_cell x y = w.birth_cell x y := by
      unfold World.toggle_cell
      rw [if_neg (by rw [h]; exact Bool.false_ne_true)]
    have h2 : ((w.birth_cell x y).cells x y).alive = true := by
      rw [World.birth_cell_alive, if_pos ⟨rfl, rfl⟩]
    have h3 : (w.birth_cell x y).toggle_cell x y = (w.birth_cell x y).kill_cell x y := by
      unfold World.toggle_cell
      rw [if_pos h2]
    rw [h1, h3]
    exact World.birth_kill_id w x y hw hx hy h
  · have h1 : w.toggle_cell x y = w.kill_cell x y := by
      unfold World.toggle_cell
      rw [if_pos h]
    have h2 : ((w.kill_cell x y).cells x y).alive = false := by
      rw [World.kill_cell_alive, if_pos ⟨rfl, rfl⟩]
    have h3 : (w.kill_cell x y).toggle_cell x y = (w.kill_cell x y).birth_cell x y := by
      unfold World.toggle_cell
      rw [if_neg (by rw [h2]; exact Bool.false_ne_true)]
    rw [h1, h3]
    exact World.kill_birth_id w x y hw hx hy h


theorem World.seed_random_core_eq (w : World) (stream : Nat → Bool) :
    w.seed_random_core stream =
      (visitList w.width w.height).foldl (seedStep stream) (w, 0) := by
  unfold visitList
  rw [foldl_flatten]
  show (List.range (w.height - 1)).foldl
      (fun py y =>
        (List.range (w.width - 1)).foldl (fun px x => seedStep stream px (x, y)) py)
      (w, 0) = _
  congr 1
  funext acc y
  rw [List.foldl_map]

theorem seedStep_snd (stream : Nat → Bool) (P : World × Nat) (c : Nat × Nat) :
    (seedStep stream P c).2 = P.2 + 1 := by
  unfold seedStep
  split <;> rfl

theorem seedStep_fst_width (stream : Nat → Bool) (P : World × Nat) (c : Nat × Nat) :
    (seedStep stream P c).1.width = P.1.width := by
  unfold seedStep
  split
  · exact P.1.birth_cell_width c.1 c.2
  · rfl

theorem seedStep_fst_height (stream : Nat → Bool) (P : World × Nat) (c : Nat × Nat) :
    (seedStep stream P c).1.height = P.1.height := by
  unfold seedStep
  split
  · exact P.1.birth_cell_height c.1 c.2
  · rfl

theorem seedFold_counter (stream : Nat → Bool) :
    ∀ (l : List (Nat × Nat)) (P : World × Nat),
      (l.foldl (seedStep stream) P).2 = P.2 + l.length := by
  intro l
  induction l with
  | nil => intro P; rfl
  | cons c t ih =>
      intro P
      rw [List.foldl_cons, ih (seedStep stream P c), seedStep_snd]
      simp only [List.length_cons]
      omega

theorem seedFold_width (stream : Nat → Bool) :
    ∀ (l : List (Nat × Nat)) (P : World × Nat),
      ((l.foldl (seedStep stream) P).1).width = P.1.width := by
  intro l
  induction l with
  | nil => intro P; rfl
  | cons c t ih =>
      intro P
      rw [List.foldl_cons, ih (seedStep stream P c), seedStep_fst_width]

theorem seedFold_height (stream : Nat → Bool) :
    ∀ (l : List (Nat × Nat)) (P : World × Nat),
      ((l.foldl (seedStep stream) P).1).height = P.1.height := by
  intro l
  induction l with
  | nil => intro P; rfl
  | cons c t ih =>
      intro P
      rw [List.foldl_cons, ih (seedStep stream P c), seedStep_fst_height]

theorem seedFold_alive (stream : Nat → Bool) :
    ∀ (l : List (Nat × Nat)) (P : World × Nat) (p q : Nat),
      (((l.foldl (seedStep stream) P).1).cells p q).alive =
        ((P.1.cells p q).alive || drawnAt stream P.2 l p q) := by
  intro l
  induction l with
  | nil =>
      intro P p q
      rw [drawnAt, Bool.or_false]
      rfl
  | cons c t ih =>
      intro P p q
      rw [List.foldl_cons, ih (seedStep stream P c), seedStep_snd, drawnAt]
      have hfst : ((seedStep stream P c).1.cells p q).alive =
          ((P.1.cells p q).alive || (decide (c = (p, q)) && stream P.2)) := by
        unfold seedStep
        by_cases hs : stream P.2
        · rw [if_pos hs, hs, Bool.and_true]
          show ((P.1.birth_cell c.1 c.2).cells p q).alive = _
          rw [World.birth_cell_alive]
          by_cases hc : c = (p, q)
          · rw [if_pos (by rw [hc]; exact ⟨rfl, rfl⟩),
              show decide (c = (p, q)) = true from decide_eq_true hc]
            simp
          · rw [if_neg (fun hpq => hc (by
              rw [Prod.ext_iff]
              exact ⟨hpq.1.symm, hpq.2.symm⟩)),
              decide_eq_false_iff_not.mpr (fun hco => hc hco)]
            simp
        · rw [if_neg hs]
          simp only [Bool.and_eq_true] at hs
          have hsf : stream P.2 = false := by
            cases hsv : stream P.2
            · rfl
            · exact absurd hsv hs
          rw [hsf, Bool.and_false, Bool.or_false]
      rw [hfst, Bool.or_assoc]

theorem drawnAt_not_mem (stream : Nat → Bool) :
    ∀ (l : List (Nat × Nat)) (k p q : Nat), (p, q) ∉ l →
      drawnAt stream k l p q = false := by
  intro l
  induction l with
  | nil => intro k p q _; rfl
  | cons c t ih =>
      intro k p q h
      rw [List.mem_cons] at h
      push_neg at h
      rw [drawnAt, decide_eq_false_iff_not.mpr (fun hc => h.1 hc.symm),
        Bool.false_and, Bool.false_or]
      exact ih (k + 1) p q h.2

theorem seedFold_Inv (stream : Nat → Bool) :
    ∀ (l : List (Nat × Nat)) (cur : World) (k : Nat), l.Nodup →
      (∀ c ∈ l, c.1 < cur.width ∧ c.2 < cur.height) →
      (∀ c ∈ l, (cur.cells c.1 c.2).alive = false) →
      Inv cur → Inv ((l.foldl (seedStep stream) (cur, k)).1) := by
  intro l
  induction l with
  | nil => intro cur k _ _ _ hInv; exact hInv
  | cons c t ih =>
      intro cur k hnd hb hdead hInv
      rw [List.nodup_cons] at hnd
      rw [List.foldl_cons]
      have hbc := hb c (List.mem_cons_self c t)
      have hdc := hdead c (List.mem_cons_self c t)
      by_cases hs : stream k
      · have hstep : seedStep stream (cur, k) c = (cur.birth_cell c.1 c.2, k + 1) := by
          unfold seedStep
          rw [if_pos hs]
        rw [hstep]
        apply ih (cur.birth_cell c.1 c.2) (k + 1) hnd.2
        · intro d hd
          rw [World.birth_cell_width, World.birth_cell_height]
          exact hb d (List.mem_cons_of_mem c hd)
        · intro d hd
          rw [World.birth_cell_alive]
          rw [if_neg (fun hpq => hnd.1 (by
            have : d = c := by
              rw [Prod.ext_iff]
              exact hpq
            rw [← this]
            exact hd))]
          exact hdead d (List.mem_cons_of_mem c hd)
        · exact Inv_birth_of_dead cur c.1 c.2 hInv hbc.1 hbc.2 hdc
      · have hstep : seedStep stream (cur, k) c = (cur, k + 1) := by
          unfold seedStep
          rw [if_neg hs]
        rw [hstep]
        apply ih cur (k + 1) hnd.2
        · intro d hd
          exact hb d (List.mem_cons_of_mem c hd)
        · intro d hd
          exact hdead d (List.mem_cons_of_mem c hd)
        · exact hInv


theorem length_flatMap_const {α β : Type} (f : α → List β) (n : Nat)
    (hf : ∀ a, (f a).length = n) :
    ∀ l : List α, (l.flatMap f).length = l.length * n := by
  intro l
  induction l with
  | nil => simp
  | cons a t ih =>
      rw [List.flatMap_cons, List.length_append, ih, hf, List.length_cons]
      ring

theorem visitList_length (width height : Nat) :
    (visitList width height).length = (height - 1) * (width - 1) := by
  unfold visitList
  rw [length_flatMap_const _ (width - 1)
    (fun y => by rw [List.length_map, List.length_range]), List.length_range]

theorem World.seed_random_counter (w : World) (stream : Nat → Bool) :
    (w.seed_random_core stream).2 = (w.height - 1) * (w.width - 1) := by
  rw [World.seed_random_core_eq, seedFold_counter, visitList_length]
  omega

theorem World.seed_random_width (w : World) (stream : Nat → Bool) :
    (w.seed_random stream).width = w.width := by
  unfold World.seed_random
  rw [World.seed_random_core_eq, seedFold_width]

theorem World.seed_random_height (w : World) (stream : Nat → Bool) :
    (w.seed_random stream).height = w.height := by
  unfold World.seed_random
  rw [World.seed_random_core_eq, seedFold_height]

theorem World.seed_random_alive (w : World) (stream : Nat → Bool) (p q : Nat) :
    ((w.seed_random stream).cells p q).alive =
      ((w.cells p q).alive ||
        drawnAt stream 0 (visitList w.width w.height) p q) := by
  unfold World.seed_random
  rw [World.seed_random_core_eq, seedFold_alive]

theorem World.seed_random_alive_skipped (w : World) (stream : Nat → Bool)
    (p q : Nat) (h : ¬(p < w.width - 1 ∧ q < w.height - 1)) :
    ((w.seed_random stream).cells p q).alive = (w.cells p q).alive := by
  rw [World.seed_random_alive,
    drawnAt_not_mem stream _ 0 p q (fun hm => h ((mem_visitList _ _ (p, q)).mp hm)),
    Bool.or_false]

theorem Inv_seed_random (w : World) (stream : Nat → Bool) (hw : Inv w)
    (hdead : ∀ c ∈ visitList w.width w.height, (w.cells c.1 c.2).alive = false) :
    Inv (w.seed_random stream) := by
  unfold World.seed_random
  rw [World.seed_random_core_eq]
  apply seedFold_Inv stream (visitList w.width w.height) w 0 (visitList_nodup _ _)
  · intro c hc
    have hm := (mem_visitList _ _ c).mp hc
    omega
  · exact hdead
  · exact hw


theorem seedRowFold_Inv (y : Nat) :
    ∀ (toks : List (List Char)) (n : Nat) (cur w' : World),
      Inv cur →
      (∀ p q, p < cur.width → q < cur.height → (cur.cells p q).alive = true →
        (q < y ∨ (q = y ∧ p < n))) →
      ((toks.enumFrom n).foldlM
        (fun wb (qq : Nat × List Char) =>
          if qq.2 = ['#'] then wb.birth_cell? qq.1 y else some wb) cur) = some w' →
      Inv w' ∧ w'.width = cur.width ∧ w'.height = cur.height ∧
        (∀ p q, p < w'.width → q < w'.height → (w'.cells p q).alive = true →
          (q < y ∨ (q = y ∧ p < n + toks.length))) := by
  intro toks
  induction toks with
  | nil =>
      intro n cur w' hInv hbound h
      rw [show List.enumFrom n ([] : List (List Char)) = [] from rfl,
        List.foldlM_nil] at h
      obtain rfl : cur = w' := Option.some.inj h
      refine ⟨hInv, rfl, rfl, fun p q hp hq ha => ?_⟩
      have := hbound p q hp hq ha
      omega
  | cons t ts ih =>
      intro n cur w' hInv hbound h
      rw [List.enumFrom_cons, List.foldlM_cons] at h
      by_cases ht : t = ['#']
      · rw [if_pos ht] at h
        unfold World.birth_cell? at h
        by_cases hg : n < cur.width ∧ y < cur.height
        · rw [if_pos hg] at h
          have h2 : ((ts.enumFrom (n + 1)).foldlM
              (fun wb (qq : Nat × List Char) =>
                if qq.2 = ['#'] then wb.birth_cell? qq.1 y else some wb)
              (cur.birth_cell n y)) = some w' := h
          have hdead : (cur.cells n y).alive = false := by
            cases hb : (cur.cells n y).alive
            · rfl
            · exact absurd (hbound n y hg.1 hg.2 hb) (by omega)
          have hInv1 : Inv (cur.birth_cell n y) :=
            Inv_birth_of_dead cur n y hInv hg.1 hg.2 hdead
          have hbound1 : ∀ p q, p < (cur.birth_cell n y).width →
              q < (cur.birth_cell n y).height →
              ((cur.birth_cell n y).cells p q).alive = true →
              (q < y ∨ (q = y ∧ p < n + 1)) := by
            intro p q hp hq ha
            rw [World.birth_cell_width] at hp
            rw [World.birth_cell_height] at hq
            rw [World.birth_cell_alive] at ha
            by_cases hpq : p = n ∧ q = y
            · right
              exact ⟨hpq.2, by omega⟩
            · rw [if_neg hpq] at ha
              have := hbound p q hp hq ha
              omega
          obtain ⟨hi1, hi2, hi3, hi4⟩ := ih (n + 1) (cur.birth_cell n y) w' hInv1 hbound1 h2
          refine ⟨hi1, hi2.trans (World.birth_cell_width cur n y),
            hi3.trans (World.birth_cell_height cur n y), fun p q hp hq ha => ?_⟩
          have := hi4 p q hp hq ha
          simp only [List.length_cons]
          omega
        · rw [if_neg hg] at h
          exact Option.noConfusion (show (none : Option World) = some w' from h)
      · rw [if_neg ht] at h
        have h2 : ((ts.enumFrom (n + 1)).foldlM
            (fun wb (qq : Nat × List Char) =>
              if qq.2 = ['#'] then wb.birth_cell? qq.1 y else some wb) cur) = some w' := h
        have hbound1 : ∀ p q, p < cur.width → q < cur.height →
            (cur.cells p q).alive = true → (q < y ∨ (q = y ∧ p < n + 1)) := by
          intro p q hp hq ha
          have := hbound p q hp hq ha
          omega
        obtain ⟨hi1, hi2, hi3, hi4⟩ := ih (n + 1) cur w' hInv hbound1 h2
        refine ⟨hi1, hi2, hi3, fun p q hp hq ha => ?_⟩
        have := hi4 p q hp hq ha
        simp only [List.length_cons]
        omega

theorem seedRowsFold_Inv :
    ∀ (rows : List (List Char)) (n : Nat) (cur w' : World),
      Inv cur →
      (∀ p q, p < cur.width → q < cur.height → (cur.cells p q).alive = true → q < n) →
      ((rows.enumFrom n).foldlM
        (fun wa (pp : Nat × List Char) =>
          (splitChar ' ' (trimChars pp.2)).enum.foldlM
            (fun wb (qq : Nat × List Char) =>
              if qq.2 = ['#'] then wb.birth_cell? qq.1 pp.1 else some wb) wa) cur)
        = some w' →
      Inv w' ∧ w'.width = cur.width ∧ w'.height = cur.height ∧
        (∀ p q, p < w'.width → q < w'.height → (w'.cells p q).alive = true →
          q < n + rows.length) := by
  intro rows
  induction rows with
  | nil =>
      intro n cur w' hInv hbound h
      rw [show List.enumFrom n ([] : List (List Char)) = [] from rfl,
        List.foldlM_nil] at h
      obtain rfl : cur = w' := Option.some.inj h
      refine ⟨hInv, rfl, rfl, fun p q hp hq ha => ?_⟩
      have := hbound p q hp hq ha
      omega
  | cons r rs ih =>
      intro n cur w' hInv hbound h
      rw [List.enumFrom_cons, List.foldlM_cons] at h
      cases hinner : (splitChar ' ' (trimChars r)).enum.foldlM
          (fun wb (qq : Nat × List Char) =>
            if qq.2 = ['#'] then wb.birth_cell? qq.1 n else some wb) cur with
      | none =>
          rw [hinner] at h
          exact Option.noConfusion (show (none : Option World) = some w' from h)
      | some cur1 =>
          rw [hinner] at h
          have h2 : ((rs.enumFrom (n + 1)).foldlM
              (fun wa (pp : Nat × List Char) =>
                (splitChar ' ' (trimChars pp.2)).enum.foldlM
                  (fun wb (qq : Nat × List Char) =>
                    if qq.2 = ['#'] then wb.birth_cell? qq.1 pp.1 else some wb) wa)
              cur1) = some w' := h
          have hinner2 : (((splitChar ' ' (trimChars r)).enumFrom 0).foldlM
              (fun wb (qq : Nat × List Char) =>
                if qq.2 = ['#'] then wb.birth_cell? qq.1 n else some wb) cur)
              = some cur1 := hinner
          obtain ⟨hj1, hj2, hj3, hj4⟩ := seedRowFold_Inv n (splitChar ' ' (trimChars r))
            0 cur cur1 hInv
            (fun p q hp hq ha => Or.inl (hbound p q hp hq ha)) hinner2
          have hbound1 : ∀ p q, p < cur1.width → q < cur1.height →
              (cur1.cells p q).alive = true → q < n + 1 := by
            intro p q hp hq ha
            have := hj4 p q hp hq ha
            omega
          obtain ⟨hi1, hi2, hi3, hi4⟩ := ih (n + 1) cur1 w' hj1 hbound1 h2
          refine ⟨hi1, hi2.trans hj2, hi3.trans hj3, fun p q hp hq ha => ?_⟩
          have := hi4 p q hp hq ha
          simp only [List.length_cons]
          omega

theorem Inv_seed_from_string (w w' : World) (s : String) (hw : Inv w)
    (hdead : ∀ p q, p < w.width → q < w.height → (w.cells p q).alive = false)
    (h : w.seed_from_string? s = some w') : Inv w' := by
  unfold World.seed_from_string? at h
  have h2 : (((splitChar '\n' (trimChars s.data)).enumFrom 0).foldlM
      (fun wa (pp : Nat × List Char) =>
        (splitChar ' ' (trimChars pp.2)).enum.foldlM
          (fun wb (qq : Nat × List Char) =>
            if qq.2 = ['#'] then wb.birth_cell? qq.1 pp.1 else some wb) wa) w)
      = some w' := h
  have hbound : ∀ p q, p < w.width → q < w.height →
      (w.cells p q).alive = true → q < 0 := by
    intro p q hp hq ha
    rw [hdead p q hp hq] at ha
    exact Bool.noConfusion ha
  exact (seedRowsFold_Inv (splitChar '\n' (trimChars s.data)) 0 w w' hw hbound h2).1

theorem Inv_reachableSafe : ∀ w, ReachableSafe w → Inv w := by
  intro w h
  induction h with
  | new W H => exact Inv_new W H
  | seed_from_string w0 s w1 _ hdead heq ih =>
      exact Inv_seed_from_string w0 w1 s ih hdead heq
  | seed_random w0 stream w1 _ hdead heq ih =>
      unfold World.seed_random? at heq
      by_cases hg : 1 ≤ w0.width ∧ 1 ≤ w0.height
      · rw [if_pos hg] at heq
        obtain rfl : w0.seed_random stream = w1 := Option.some.inj heq
        apply Inv_seed_random w0 stream ih
        intro c hc
        have hm := (mem_visitList _ _ c).mp hc
        exact hdead c.1 c.2 (by omega) (by omega)
      · rw [if_neg hg] at heq
        exact Option.noConfusion heq
  | toggle_cell w0 x y w1 _ heq ih =>
      unfold World.toggle_cell? at heq
      by_cases hg : x < w0.width ∧ y < w0.height
      · rw [if_pos hg] at heq
        obtain rfl : w0.toggle_cell x y = w1 := Option.some.inj heq
        exact Inv_toggle w0 x y ih hg.1 hg.2
      · rw [if_neg hg] at heq
        exact Option.noConfusion heq
  | simulate w0 w1 _ heq ih =>
      unfold World.simulate? at heq
      by_cases hg : 1 ≤ w0.width ∧ 1 ≤ w0.height
      · rw [if_pos hg] at heq
        obtain rfl : w0.simulate = w1 := Option.some.inj heq
        exact Inv_simulate w0 ih
      · rw [if_neg hg] at heq
        exact Option.noConfusion heq


theorem wrap_block_mem (width x0 p : Nat) (o : Int) (hp : p < width)
    (hm1 : 1 ≤ x0) (hm2 : x0 + 3 ≤ width) (ho : o = -1 ∨ o = 0 ∨ o = 1) :
    (add_offset (width - 1) p o = x0 ∨ add_offset (width - 1) p o = x0 + 1) ↔
      ((p : Int) + o = x0 ∨ (p : Int) + o = x0 + 1) := by
  rcases ho with h | h | h <;> subst h
  · rw [add_offset_neg_one _ _ (by omega)]
    split_ifs <;> omega
  · rw [add_offset_zero _ _ (by omega)]
    omega
  · rw [add_offset_one _ _ (by omega)]
    split_ifs <;> (try simp only [or_false, false_or]) <;> omega

theorem countP_eight (f : Int × Int → Bool) :
    OFFSETS.countP f =
      (if f (-1, -1) then 1 else 0) + (if f (-1, 0) then 1 else 0) +
      (if f (-1, 1) then 1 else 0) + (if f (0, -1) then 1 else 0) +
      (if f (0, 1) then 1 else 0) + (if f (1, -1) then 1 else 0) +
      (if f (1, 0) then 1 else 0) + (if f (1, 1) then 1 else 0) := by
  simp only [OFFSETS, List.countP_cons, List.countP_nil]
  ring

theorem ite_and_one (A B : Prop) [Decidable A] [Decidable B] :
    (if A ∧ B then (1 : Nat) else 0) =
      (if A then (1 : Nat) else 0) * (if B then 1 else 0) := by
  by_cases hA : A <;> by_cases hB : B <;> simp [hA, hB]

theorem block_liveNeighbours (w : World) (x0 y0 : Nat)
    (hx1 : 1 ≤ x0) (hx2 : x0 + 3 ≤ w.width) (hy1 : 1 ≤ y0) (hy2 : y0 + 3 ≤ w.height)
    (halive : ∀ p q, p < w.width → q < w.height →
      ((w.cells p q).alive = true ↔ ((p = x0 ∨ p = x0 + 1) ∧ (q = y0 ∨ q = y0 + 1))))
    (p q : Nat) (hp : p < w.width) (hq : q < w.height) :
    liveNeighbours w p q =
      OFFSETS.countP (fun o =>
        decide ((((p : Int) + o.1 = x0 ∨ (p : Int) + o.1 = x0 + 1) ∧
                 ((q : Int) + o.2 = y0 ∨ (q : Int) + o.2 = y0 + 1)))) := by
  rw [liveNeighbours_eq_countP]
  apply List.countP_congr
  intro o ho
  have hcomp := OFFSETS_components o ho
  have hwx := add_offset_le (w.width - 1) p o.1
  have hwy := add_offset_le (w.height - 1) q o.2
  rw [decide_eq_true_eq]
  unfold wrapNbr
  rw [halive _ _ (by omega) (by omega)]
  exact and_congr
    (wrap_block_mem w.width x0 p o.1 hp hx1 hx2 hcomp.1)
    (wrap_block_mem w.height y0 q o.2 hq hy1 hy2 hcomp.2)

theorem block_liveN_in (w : World) (x0 y0 : Nat)
    (hx1 : 1 ≤ x0) (hx2 : x0 + 3 ≤ w.width) (hy1 : 1 ≤ y0) (hy2 : y0 + 3 ≤ w.height)
    (halive : ∀ p q, p < w.width → q < w.height →
      ((w.cells p q).alive = true ↔ ((p = x0 ∨ p = x0 + 1) ∧ (q = y0 ∨ q = y0 + 1))))
    (p q : Nat) (hp : p < w.width) (hq : q < w.height)
    (hb : (p = x0 ∨ p = x0 + 1) ∧ (q = y0 ∨ q = y0 + 1)) :
    liveNeighbours w p q = 3 := by
  rw [block_liveNeighbours w x0 y0 hx1 hx2 hy1 hy2 halive p q hp hq, countP_eight]
  simp only [decide_eq_true_eq, ite_and_one]
  split_ifs <;> omega

theorem block_liveN_out (w : World) (x0 y0 : Nat)
    (hx1 : 1 ≤ x0) (hx2 : x0 + 3 ≤ w.width) (hy1 : 1 ≤ y0) (hy2 : y0 + 3 ≤ w.height)
    (halive : ∀ p q, p < w.width → q < w.height →
      ((w.cells p q).alive = true ↔ ((p = x0 ∨ p = x0 + 1) ∧ (q = y0 ∨ q = y0 + 1))))
    (p q : Nat) (hp : p < w.width) (hq : q < w.height)
    (hb : ¬((p = x0 ∨ p = x0 + 1) ∧ (q = y0 ∨ q = y0 + 1))) :
    liveNeighbours w p q ≤ 2 := by
  rw [block_liveNeighbours w x0 y0 hx1 hx2 hy1 hy2 halive p q hp hq, countP_eight]
  simp only [decide_eq_true_eq, ite_and_one]
  split_ifs <;> omega

theorem simFold_noop (old : World) :
    ∀ (l : List (Nat × Nat)) (cur : World),
      (∀ c ∈ l,
        ¬((old.cells c.1 c.2).alive = true ∧
            ((old.cells c.1 c.2).live_neighbours_count < 2 ∨
             (old.cells c.1 c.2).live_neighbours_count > 3)) ∧
        ¬((old.cells c.1 c.2).alive = false ∧
            (old.cells c.1 c.2).live_neighbours_count = 3)) →
      l.foldl (simStep old) cur = cur := by
  intro l
  induction l with
  | nil => intro cur _; rfl
  | cons c t ih =>
      intro cur h
      have hc := h c (List.mem_cons_self c t)
      have hstep : simStep old cur c = cur := by
        simp only [simStep]
        rw [if_neg hc.1, if_neg hc.2]
      rw [List.foldl_cons, hstep]
      exact ih cur (fun d hd => h d (List.mem_cons_of_mem c hd))

theorem block_still (w : World) (x0 y0 : Nat) (hw : Inv w)
    (hx1 : 1 ≤ x0) (hx2 : x0 + 3 ≤ w.width) (hy1 : 1 ≤ y0) (hy2 : y0 + 3 ≤ w.height)
    (halive : ∀ p q, p < w.width → q < w.height →
      ((w.cells p q).alive = true ↔ ((p = x0 ∨ p = x0 + 1) ∧ (q = y0 ∨ q = y0 + 1)))) :
    w.simulate = w := by
  rw [World.simulate_eq]
  apply simFold_noop
  intro c hc
  have hm := (mem_visitList _ _ c).mp hc
  have hp : c.1 < w.width := by omega
  have hq : c.2 < w.height := by omega
  have hcnt : (w.cells c.1 c.2).live_neighbours_count = liveNeighbours w c.1 c.2 :=
    hw c.1 hp c.2 hq
  by_cases hb : (c.1 = x0 ∨ c.1 = x0 + 1) ∧ (c.2 = y0 ∨ c.2 = y0 + 1)
  · have ha : (w.cells c.1 c.2).alive = true := (halive c.1 c.2 hp hq).mpr hb
    have h3 : liveNeighbours w c.1 c.2 = 3 :=
      block_liveN_in w x0 y0 hx1 hx2 hy1 hy2 halive c.1 c.2 hp hq hb
    constructor
    · intro hcon
      rw [hcnt, h3] at hcon
      rcases hcon with ⟨_, hcon2⟩
      omega
    · intro hcon
      rw [ha] at hcon
      exact Bool.noConfusion hcon.1
  · have ha : (w.cells c.1 c.2).alive = false := by
      cases hav : (w.cells c.1 c.2).alive
      · rfl
      · exact absurd ((halive c.1 c.2 hp hq).mp hav) hb
    have h2 : liveNeighbours w c.1 c.2 ≤ 2 :=
      block_liveN_out w x0 y0 hx1 hx2 hy1 hy2 halive c.1 c.2 hp hq hb
    constructor
    · intro hcon
      rw [ha] at hcon
      exact Bool.noConfusion hcon.1
    · intro hcon
      rw [hcnt] at hcon
      omega


theorem add_offset_emod (width n : Nat) (o : Int) (hw : 1 ≤ width) (hn : n < width)
    (ho : o = -1 ∨ o = 0 ∨ o = 1) :
    (add_offset (width - 1) n o : Int) = ((n : Int) + o) % (width : Int) := by
  rcases ho with h | h | h <;> subst h
  · rw [add_offset_neg_one _ _ (by omega)]
    split_ifs with h0
    · subst h0
      have h1 : ((0 : Int) + -1) % (width : Int) = ((width : Int) - 1) % (width : Int) := by
        conv_lhs => rw [show (0 : Int) + -1 = ((width : Int) - 1) + (width : Int) * (-1) by ring]
        rw [Int.add_mul_emod_self_left]
      rw [show ((0 : Nat) : Int) + -1 = (0 : Int) + -1 by norm_num, h1,
        Int.emod_eq_of_lt (by omega) (by omega)]
      omega
    · rw [Int.emod_eq_of_lt (by omega) (by omega)]
      omega
  · rw [add_offset_zero _ _ (by omega), Int.emod_eq_of_lt (by omega) (by omega)]
    omega
  · rw [add_offset_one _ _ (by omega)]
    split_ifs with h0
    · subst h0
      rw [show ((width - 1 : Nat) : Int) + 1 = (width : Int) by omega, Int.emod_self]
      norm_num
    · rw [Int.emod_eq_of_lt (by omega) (by omega)]
      omega


/-- C1 (counterexample): the state `exW1`, obtained by seeding a 3x3 grid
randomly twice with an all-true stream, is reachable through the public
operations, yet its cached neighbour counts do not match the alive cells:
the second seed increments the neighbours of already-alive cells again. -/
theorem C1_counterexample : Reachable exW1 ∧ ¬ Inv exW1 := by
  constructor
  · exact Reachable.seed_random _ streamTrue _
      (Reachable.seed_random _ streamTrue _ (Reachable.new 3 3) rfl) rfl
  · decide

/-- C1 (amended): the cached-count invariant holds for every grid state
reachable through construction, `toggle_cell`, `simulate`, and seeding
operations that are only applied to grids with no alive cells; it holds
after every individual mutation along such executions. -/
theorem C1_theorem : ∀ w, ReachableSafe w → Inv w :=
  Inv_reachableSafe

/-- C1 (witness): the invariant holds on a concrete safely-seeded grid. -/
theorem C1_witness : Inv ((World.new 3 3).seed_random streamTrue) :=
  C1_theorem ((World.new 3 3).seed_random streamTrue)
    (ReachableSafe.seed_random (World.new 3 3) streamTrue _
      (ReachableSafe.new 3 3) (fun _ _ _ _ => rfl) rfl)

/-- C2 (counterexample): on the reachable 3x3 grid `exW2`, the cell (2,2)
(last row and last column) is dead with live-neighbour count exactly 3, yet
after `simulate` it is still dead — the standard rule would birth it.  The
`for` loops of `simulate` stop at `width - 1` / `height - 1` exclusive. -/
theorem C2_counterexample :
    (exW2.cells 2 2).alive = false ∧
    (exW2.cells 2 2).live_neighbours_count = 3 ∧
    liveNeighbours exW2 2 2 = 3 ∧
    (exW2.simulate.cells 2 2).alive = false := by
  decide

/-- C2 (amended): after `simulate`, a cell with `x < width - 1` and
`y < height - 1` carries the alive flag given by the standard rule applied
to its pre-call snapshot cell, and every cell in the last row or last
column keeps its previous alive flag. -/
theorem C2_theorem : ∀ (w : World) (p q : Nat),
    ((w.simulate).cells p q).alive =
      if p < w.width - 1 ∧ q < w.height - 1 then ruleAlive (w.cells p q)
      else (w.cells p q).alive :=
  fun w p q => World.simulate_alive w p q

/-- C3: `simulate` is simultaneous: for every starting grid, the post-step
alive flag of every visited cell is a function of the alive flag and
neighbour count that the cell had in the grid at the moment `simulate` was
called (the cloned `old_world`), never of values mutated earlier in the
same pass. -/
theorem C3_theorem : ∀ (w : World) (p q : Nat),
    p < w.width - 1 → q < w.height - 1 →
    ((w.simulate).cells p q).alive = ruleAlive (w.cells p q) := by
  intro w p q hp hq
  rw [World.simulate_alive, if_pos ⟨hp, hq⟩]

/-- C3 (witness): the characterization at a concrete grid and cell. -/
theorem C3_witness :
    ((exW2.simulate).cells 1 1).alive = ruleAlive (exW2.cells 1 1) :=
  C3_theorem exW2 1 1 (by decide) (by decide)

/-- C4: neighbour lookup is toroidal: for every in-bounds coordinate and
offset in {-1,0,1}, `add_offset` computes addition modulo the dimension; in
particular offset -1 from column 0 gives column `width-1` and offset +1
from column `width-1` gives column 0; and on a 4x4 grid birthing the four
corners leaves every corner with neighbour count 3, each corner being a
wrapped neighbour of the others. -/
theorem C4_theorem :
    (∀ (width x : Nat) (o : Int), 1 ≤ width → x < width →
      (o = -1 ∨ o = 0 ∨ o = 1) →
      (add_offset (width - 1) x o : Int) = ((x : Int) + o) % (width : Int)) ∧
    (add_offset 3 0 (-1) = 3 ∧ add_offset 3 3 1 = 0) ∧
    ((3, 3) ∈ neighbourCoords (World.new 4 4) 0 0 ∧
     (cornersWorld.cells 0 0).live_neighbours_count = 3 ∧
     (cornersWorld.cells 3 0).live_neighbours_count = 3 ∧
     (cornersWorld.cells 0 3).live_neighbours_count = 3 ∧
     (cornersWorld.cells 3 3).live_neighbours_count = 3) := by
  refine ⟨fun width x o hw hx ho => add_offset_emod width x o hw hx ho, ?_, ?_⟩
  · decide
  · decide

/-- C4 (witness): the modular characterization at a concrete wrap. -/
theorem C4_witness :
    (add_offset (4 - 1) 0 (-1) : Int) = ((0 : Int) + (-1)) % (4 : Int) :=
  C4_theorem.1 4 0 (-1) (by decide) (by decide) (by decide)


theorem hitCount_pos {l : List (Nat × Nat)} {p q : Nat} (h : (p, q) ∈ l) :
    1 ≤ hitCount l p q := by
  unfold hitCount
  rw [← List.countP_eq_length_filter]
  exact List.countP_pos_iff.mpr ⟨(p, q), h, by simp⟩

/-- C5 (counterexample): `birth_cell` on the already-alive cell (0,0) of
`exW5` raises the neighbour count of (1,1) from 1 to 2, and `kill_cell` on
the dead cell (0,0) of a fresh 3x3 grid wraps the count of (1,1) from 0 to
255 — neither operation is the no-op the claim demands. -/
theorem C5_counterexample :
    (exW5.cells 0 0).alive = true ∧
    (exW5.cells 1 1).live_neighbours_count = 1 ∧
    ((exW5.birth_cell 0 0).cells 1 1).live_neighbours_count = 2 ∧
    (((World.new 3 3).kill_cell 0 0).cells 1 1).live_neighbours_count = 255 := by
  decide

/-- C5 (amended): `birth_cell` on an already-alive cell leaves every alive
flag unchanged but increments the count of each of the 8 wrapped neighbour
positions again (once per offset hitting the position, mod 2^8), and
`kill_cell` on an already-dead cell leaves every alive flag unchanged but
decrements those counts (mod 2^8); in both cases the coordinate being
birthed or killed hits at least one wrapped neighbour position. -/
theorem C5_theorem : ∀ (w : World) (x y : Nat),
    ((w.cells x y).alive = true →
      (∀ p q, ((w.birth_cell x y).cells p q).alive = (w.cells p q).alive) ∧
      (∀ p q, (p, q) ∈ neighbourCoords w x y →
        ((w.birth_cell x y).cells p q).live_neighbours_count =
          ((w.cells p q).live_neighbours_count +
            hitCount (neighbourCoords w x y) p q) % 256 ∧
        1 ≤ hitCount (neighbourCoords w x y) p q)) ∧
    ((w.cells x y).alive = false →
      (∀ p q, ((w.kill_cell x y).cells p q).alive = (w.cells p q).alive) ∧
      (∀ p q, (p, q) ∈ neighbourCoords w x y →
        ((w.kill_cell x y).cells p q).live_neighbours_count =
          ((w.cells p q).live_neighbours_count +
            255 * hitCount (neighbourCoords w x y) p q) % 256 ∧
        1 ≤ hitCount (neighbourCoords w x y) p q)) := by
  intro w x y
  constructor
  · intro halive
    constructor
    · intro p q
      rw [World.birth_cell_alive]
      by_cases hpq : p = x ∧ q = y
      · rw [if_pos hpq, hpq.1, hpq.2, halive]
      · rw [if_neg hpq]
    · intro p q hmem
      rw [World.birth_cell_count, if_pos hmem]
      exact ⟨rfl, hitCount_pos hmem⟩
  · intro hdead
    constructor
    · intro p q
      rw [World.kill_cell_alive]
      by_cases hpq : p = x ∧ q = y
      · rw [if_pos hpq, hpq.1, hpq.2, hdead]
      · rw [if_neg hpq]
    · intro p q hmem
      rw [World.kill_cell_count, if_pos hmem]
      exact ⟨rfl, hitCount_pos hmem⟩

/-- C5 (witness): the amended characterization at a concrete grid. -/
theorem C5_witness :
    ((exW5.birth_cell 0 0).cells 2 2).alive = (exW5.cells 2 2).alive :=
  ((C5_theorem exW5 0 0).1 (by decide)).1 2 2

/-- C6 (counterexample): `seed_from_string` on a 3x3 grid with a row longer
than the width (an alive token at column 3) does not return an error value
leaving the grid unchanged — it panics (modelled `none`, from the
out-of-bounds `Vec` index in `birth_cell`), and so does `birth_cell` at
`(width, 0)`. -/
theorem C6_counterexample :
    ((World.new 3 3).seed_from_string? "# # # #") = none ∧
    ((World.new 3 3).birth_cell? 3 0) = none := by
  exact ⟨rfl, rfl⟩

/-- C6 (amended): an out-of-bounds coordinate makes `birth_cell` panic
(`none`) rather than return an error; a pattern whose row exceeds the width
panics if the out-of-range token is `#`, and is silently accepted with no
error and no mutation when the out-of-range tokens are dead. -/
theorem C6_theorem :
    (∀ (w : World) (x y : Nat), ¬(x < w.width ∧ y < w.height) →
      w.birth_cell? x y = none) ∧
    ((World.new 3 3).seed_from_string? "# # # #") = none ∧
    ((World.new 3 3).seed_from_string? "- - - - -") = some (World.new 3 3) := by
  refine ⟨fun w x y h => ?_, rfl, rfl⟩
  unfold World.birth_cell?
  rw [if_neg h]

/-- C6 (witness): the panic at a concrete out-of-range birth. -/
theorem C6_witness : (World.new 4 4).birth_cell? 4 0 = none :=
  C6_theorem.1 (World.new 4 4) 4 0 (by decide)

/-- C7: on a grid satisfying the count invariant, `birth_cell` then
`kill_cell` on a dead in-bounds cell restores the exact prior grid state
(alive flags and all neighbour counts), and `toggle_cell` twice on any
in-bounds cell restores the exact prior grid state. -/
theorem C7_theorem : ∀ (w : World) (x y : Nat), Inv w →
    x < w.width → y < w.height →
    ((w.cells x y).alive = false → (w.birth_cell x y).kill_cell x y = w) ∧
    (w.toggle_cell x y).toggle_cell x y = w := by
  intro w x y hw hx hy
  exact ⟨fun hdead => World.birth_kill_id w x y hw hx hy hdead,
    World.toggle_toggle w x y hw hx hy⟩

/-- C7 (witness): birth-then-kill and double toggle at a concrete grid. -/
theorem C7_witness :
    ((exW5.birth_cell 1 1).kill_cell 1 1 = exW5) ∧
    ((exW5.toggle_cell 1 1).toggle_cell 1 1 = exW5) :=
  ⟨(C7_theorem exW5 1 1 (by decide) (by decide) (by decide)).1 (by decide),
   (C7_theorem exW5 1 1 (by decide) (by decide) (by decide)).2⟩


/-- C8 (counterexample): `seed_random` on a 3x3 grid with an all-true draw
stream makes only 4 draws, not 9, and never births the cells of the last
row or column: cell (2,0) stays dead even though every draw is true. -/
theorem C8_counterexample :
    ((World.new 3 3).seed_random_core streamTrue).2 = 4 ∧
    ¬ ((World.new 3 3).seed_random_core streamTrue).2 = 3 * 3 ∧
    (((World.new 3 3).seed_random streamTrue).cells 0 0).alive = true ∧
    (((World.new 3 3).seed_random streamTrue).cells 2 0).alive = false := by
  decide

/-- C8 (amended): `seed_random` makes one draw for each cell of the
`(width-1) x (height-1)` subgrid (row-major, skipping the last row and
last column), births exactly the visited cells whose draw is true, leaves
the skipped cells untouched, and preserves the neighbour-count invariant
when the visited cells start dead. -/
theorem C8_theorem : ∀ (w : World) (stream : Nat → Bool),
    (w.seed_random_core stream).2 = (w.height - 1) * (w.width - 1) ∧
    (∀ p q, ((w.seed_random stream).cells p q).alive =
      ((w.cells p q).alive || drawnAt stream 0 (visitList w.width w.height) p q)) ∧
    (∀ p q, ¬(p < w.width - 1 ∧ q < w.height - 1) →
      ((w.seed_random stream).cells p q).alive = (w.cells p q).alive) ∧
    (Inv w → (∀ c ∈ visitList w.width w.height, (w.cells c.1 c.2).alive = false) →
      Inv (w.seed_random stream)) := by
  intro w stream
  refine ⟨World.seed_random_counter w stream,
    fun p q => World.seed_random_alive w stream p q,
    fun p q h => World.seed_random_alive_skipped w stream p q h,
    fun hw hdead => Inv_seed_random w stream hw hdead⟩

/-- C8 (witness): the amended characterization at a concrete grid. -/
theorem C8_witness :
    (((World.new 3 3).seed_random streamTrue).cells 2 2).alive =
      ((World.new 3 3).cells 2 2).alive ∧
    Inv ((World.new 3 3).seed_random streamTrue) :=
  ⟨(C8_theorem (World.new 3 3) streamTrue).2.2.1 2 2 (by decide),
   (C8_theorem (World.new 3 3) streamTrue).2.2.2 (by decide) (by decide)⟩

/-- C9: a grid whose only alive cells form a 2x2 block with at least one
dead cell of margin on every side, and whose cached counts satisfy the
invariant, is left exactly unchanged by one call to `simulate` (every alive
flag and every neighbour count). -/
theorem C9_theorem : ∀ (w : World) (x0 y0 : Nat), Inv w →
    1 ≤ x0 → x0 + 3 ≤ w.width → 1 ≤ y0 → y0 + 3 ≤ w.height →
    (∀ p q, p < w.width → q < w.height →
      ((w.cells p q).alive = true ↔
        ((p = x0 ∨ p = x0 + 1) ∧ (q = y0 ∨ q = y0 + 1)))) →
    w.simulate = w := by
  intro w x0 y0 hw hx1 hx2 hy1 hy2 halive
  exact block_still w x0 y0 hw hx1 hx2 hy1 hy2 halive

/-- C9 (witness): the classic 4x4 block still life is fixed by `simulate`. -/
theorem C9_witness : blockWorld.simulate = blockWorld :=
  C9_theorem blockWorld 1 1 (by decide) (by decide) (by decide) (by decide)
    (by decide)
    (by
      intro p q hp hq
      have hp4 : p < 4 := hp
      have hq4 : q < 4 := hq
      clear hp hq
      interval_cases p <;> interval_cases q <;> decide)

/-- C10: `add_offset max n offset` with `n ≤ max` and offset in {-1,0,1}
always lands in `[0, max]`, and for a grid with positive dimensions every
wrapped neighbour coordinate produced by `for_each_neighbour` lies in
`[0, width) x [0, height)`, so the count updates of `birth_cell` and
`kill_cell` never index out of bounds. -/
theorem C10_theorem :
    (∀ (max n : Nat) (o : Int), n ≤ max → (o = -1 ∨ o = 0 ∨ o = 1) →
      add_offset max n o ≤ max) ∧
    (∀ (w : World) (x y : Nat), 1 ≤ w.width → 1 ≤ w.height →
      ∀ c ∈ neighbourCoords w x y, c.1 < w.width ∧ c.2 < w.height) := by
  constructor
  · intro max n o _ _
    exact add_offset_le max n o
  · intro w x y hW hH c hc
    exact mem_neighbourCoords_bounds hc hW hH

/-- C10 (witness): the bound at a concrete offset application and a
concrete neighbour list. -/
theorem C10_witness :
    add_offset 3 3 1 ≤ 3 ∧
    ((0, 3) ∈ neighbourCoords (World.new 4 4) 0 0 →
      (0 : Nat) < (World.new 4 4).width ∧ (3 : Nat) < (World.new 4 4).height) :=
  ⟨C10_theorem.1 3 3 1 (by decide) (by decide),
   fun hc => C10_theorem.2 (World.new 4 4) 0 0 (by decide) (by decide) (0, 3) hc⟩

end Gol
